import Mathlib

/-!
# Verification of the HCI_GPUPlease crawler helpers

A shallow embedding, in Lean 4, of the pure helper functions and the
per-page control loops of the repository's Scrapy spiders, together with
proofs of the properties stated in the specification.

Python strings are modelled as `List Char` (with `String` wrappers at the
API boundary), `None`-able values as `Option`, and raised exceptions as
`Except`.  Library functions from the Python standard library
(`urllib.parse.urlsplit`, `urllib.parse.parse_qs`, `re` searches for the
specific patterns used, `datetime.date`, `uuid.uuid5`) are modelled by
executable Lean definitions that follow the CPython implementations on the
inputs exercised here.
-/

namespace PyStr

/-- Characters treated as whitespace both by Python's `str.strip()` and by
the regex class `\s` (re.UNICODE), restricted to the code points that occur
in practice: ASCII whitespace, the C1 next-line, and the no-break space. -/
def isSpace (c : Char) : Bool :=
  c = ' ' || c = '\t' || c = '\n' || c = '\r' || c = '\u000b' || c = '\u000c' ||
  c = '\u001c' || c = '\u001d' || c = '\u001e' || c = '\u001f' ||
  c = '\u0085' || c = '\u00A0'

/-- `str.lstrip()` (no argument form). -/
def lstrip (l : List Char) : List Char := l.dropWhile isSpace

/-- `str.rstrip()` (no argument form), by direct recursion. -/
def rstrip : List Char → List Char
  | [] => []
  | c :: cs =>
    match rstrip cs with
    | [] => if isSpace c then [] else [c]
    | r => c :: r

/-- `str.strip()` (no argument form). -/
def strip (l : List Char) : List Char := rstrip (lstrip l)

/-- `str.replace(a, b)` for single-character `a`, `b`. -/
def replaceCh (a b : Char) (l : List Char) : List Char :=
  l.map (fun c => if c = a then b else c)

/-- `re.sub(r"\s+", " ", s)`: every maximal run of whitespace becomes one
single space character. -/
def subWsOne : List Char → List Char
  | [] => []
  | c :: cs =>
    if isSpace c then ' ' :: subWsOne (cs.dropWhile isSpace)
    else c :: subWsOne cs
termination_by l => l.length
decreasing_by
  · exact Nat.lt_succ_of_le (List.dropWhile_sublist _).length_le
  · simp

/-- The whitespace-separated tokens of a character list (each token is a
maximal nonempty run of non-whitespace characters).  This is the
specification-side notion of "single-space-separated tokens". -/
def wordsBy : List Char → List (List Char)
  | [] => []
  | c :: cs =>
    if isSpace c then wordsBy cs
    else (c :: cs.takeWhile (fun d => !isSpace d)) ::
      wordsBy (cs.dropWhile (fun d => !isSpace d))
termination_by l => l.length
decreasing_by
  · simp
  · exact Nat.lt_succ_of_le (List.dropWhile_sublist _).length_le

theorem rstrip_eq_nil (l : List Char) (h : ∀ c ∈ l, isSpace c = true) :
    rstrip l = [] := by
  induction l with
  | nil => rfl
  | cons c cs ih =>
    have hcs := ih (fun x hx => h x (List.mem_cons_of_mem _ hx))
    simp [rstrip, hcs, h c (List.mem_cons_self ..)]

theorem allspace_of_rstrip_eq_nil (l : List Char) (h : rstrip l = []) :
    ∀ c ∈ l, isSpace c = true := by
  induction l with
  | nil => simp
  | cons c cs ih =>
    intro x hx
    rw [rstrip] at h
    rcases hr : rstrip cs with _ | ⟨a, r⟩
    · rw [hr] at h
      rcases List.mem_cons.1 hx with rfl | hx'
      · by_contra hxs
        simp [hxs] at h
      · exact ih hr x hx'
    · rw [hr] at h
      simp at h

theorem rstrip_cons_of_ne (c : Char) (cs : List Char) (h : rstrip cs ≠ []) :
    rstrip (c :: cs) = c :: rstrip cs := by
  rw [rstrip]
  rcases hr : rstrip cs with _ | ⟨a, r⟩
  · exact absurd hr h
  · rfl

theorem rstrip_cons_nonspace (c : Char) (cs : List Char) (h : isSpace c = false) :
    rstrip (c :: cs) = c :: rstrip cs := by
  rw [rstrip]
  rcases hr : rstrip cs with _ | ⟨a, r⟩
  · simp [h]
  · rfl

theorem rstrip_append_of_ne (t r : List Char) (h : rstrip r ≠ []) :
    rstrip (t ++ r) = t ++ rstrip r := by
  induction t with
  | nil => simp
  | cons a t' ih =>
    have : rstrip (t' ++ r) ≠ [] := by
      rw [ih]
      simp [h]
    rw [List.cons_append, rstrip_cons_of_ne _ _ this, ih]
    rfl

theorem rstrip_append_of_nil (t r : List Char) (h : rstrip r = []) :
    rstrip (t ++ r) = rstrip t := by
  induction t with
  | nil => simpa using h
  | cons a t' ih =>
    rw [List.cons_append, rstrip, ih, rstrip]

theorem rstrip_of_nonspace (l : List Char) (h : ∀ c ∈ l, isSpace c = false) :
    rstrip l = l := by
  induction l with
  | nil => rfl
  | cons c cs ih =>
    rw [rstrip_cons_nonspace c cs (h c (List.mem_cons_self ..)),
      ih (fun x hx => h x (List.mem_cons_of_mem _ hx))]

theorem lstrip_cons_space (c : Char) (cs : List Char) (h : isSpace c = true) :
    lstrip (c :: cs) = lstrip cs := by
  simp [lstrip, List.dropWhile_cons, h]

theorem lstrip_cons_nonspace (c : Char) (cs : List Char) (h : isSpace c = false) :
    lstrip (c :: cs) = c :: cs := by
  simp [lstrip, List.dropWhile_cons, h]

theorem lstrip_eq_nil (l : List Char) (h : ∀ c ∈ l, isSpace c = true) :
    lstrip l = [] := by
  simpa [lstrip, List.dropWhile_eq_nil_iff] using h

theorem lstrip_rstrip_comm (l : List Char) :
    lstrip (rstrip l) = rstrip (lstrip l) := by
  induction l with
  | nil => rfl
  | cons c cs ih =>
    by_cases hc : isSpace c = true
    · rcases hr : rstrip cs with _ | ⟨a, r⟩
      · have h1 : rstrip (c :: cs) = [] := by simp [rstrip, hr, hc]
        rw [h1, lstrip_cons_space c cs hc,
          lstrip_eq_nil cs (allspace_of_rstrip_eq_nil cs hr)]
        rfl
      · have h1 : rstrip (c :: cs) = c :: rstrip cs :=
          rstrip_cons_of_ne c cs (by simp [hr])
        rw [h1, lstrip_cons_space c _ hc, ih, lstrip_cons_space c cs hc]
    · have hc' : isSpace c = false := by simpa using hc
      rw [rstrip_cons_nonspace c cs hc', lstrip_cons_nonspace c _ hc',
        lstrip_cons_nonspace c cs hc', rstrip_cons_nonspace c cs hc']

theorem dropWhile_head_false {α : Type} {p : α → Bool} :
    ∀ (l : List α) (d : α) (r : List α), l.dropWhile p = d :: r → p d = false := by
  intro l
  induction l with
  | nil => intro d r h; simp at h
  | cons a l' ih =>
    intro d r h
    rw [List.dropWhile_cons] at h
    by_cases ha : p a = true
    · rw [if_pos ha] at h
      exact ih d r h
    · rw [if_neg ha] at h
      obtain ⟨rfl, -⟩ := List.cons.inj h
      simpa using ha

set_option maxHeartbeats 1000000 in
theorem wordsBy_nil : wordsBy [] = [] := by
  conv_lhs => rw [wordsBy.eq_def]

theorem wordsBy_cons_space (c : Char) (cs : List Char) (h : isSpace c = true) :
    wordsBy (c :: cs) = wordsBy cs := by
  conv_lhs => rw [wordsBy.eq_def]
  simp [h]

theorem wordsBy_cons_nonspace (c : Char) (cs : List Char) (h : isSpace c = false) :
    wordsBy (c :: cs) = (c :: cs.takeWhile (fun d => !isSpace d)) ::
      wordsBy (cs.dropWhile (fun d => !isSpace d)) := by
  conv_lhs => rw [wordsBy.eq_def]
  simp [h]

theorem wordsBy_eq_nil_iff (l : List Char) :
    wordsBy l = [] ↔ ∀ c ∈ l, isSpace c = true := by
  induction l using wordsBy.induct with
  | case1 => simp [wordsBy_nil]
  | case2 c cs hc ih =>
    rw [wordsBy_cons_space c cs (by simpa using hc)]
    simp only [List.mem_cons, ih]
    constructor
    · rintro h x (rfl | hx)
      · simpa using hc
      · exact h x hx
    · intro h x hx
      exact h x (Or.inr hx)
  | case3 c cs hc ih =>
    rw [wordsBy_cons_nonspace c cs (by simpa using hc)]
    simp only [List.cons_ne_nil, false_iff]
    intro h
    have := h c (List.mem_cons_self ..)
    simp [this] at hc

set_option maxHeartbeats 1000000 in
theorem subWsOne_nil : subWsOne [] = [] := by
  conv_lhs => rw [subWsOne.eq_def]

theorem subWsOne_cons_space (c : Char) (cs : List Char) (h : isSpace c = true) :
    subWsOne (c :: cs) = ' ' :: subWsOne (cs.dropWhile isSpace) := by
  conv_lhs => rw [subWsOne.eq_def]
  simp [h]

theorem subWsOne_cons_nonspace (c : Char) (cs : List Char) (h : isSpace c = false) :
    subWsOne (c :: cs) = c :: subWsOne cs := by
  conv_lhs => rw [subWsOne.eq_def]
  simp [h]

theorem subWsOne_append_nonspace (w rest : List Char)
    (h : ∀ c ∈ w, isSpace c = false) :
    subWsOne (w ++ rest) = w ++ subWsOne rest := by
  induction w with
  | nil => simp
  | cons a w' ih =>
    rw [List.cons_append, subWsOne_cons_nonspace a _ (h a (List.mem_cons_self ..)),
      ih (fun x hx => h x (List.mem_cons_of_mem _ hx)), List.cons_append]

theorem intercalate_cons_of_ne (s a : List Char) (l : List (List Char)) (h : l ≠ []) :
    List.intercalate s (a :: l) = a ++ s ++ List.intercalate s l := by
  rcases l with _ | ⟨b, l'⟩
  · exact absurd rfl h
  · simp [List.intercalate, List.intersperse_cons_cons, List.append_assoc]

theorem intercalate_sp_nil : List.intercalate [' '] ([] : List (List Char)) = [] := by
  simp [List.intercalate]

theorem intercalate_sp_singleton (a : List Char) : List.intercalate [' '] [a] = a := by
  simp [List.intercalate]

/-- Collapsing inner whitespace after stripping both ends yields exactly the
whitespace-separated tokens joined by single spaces. -/
theorem subWsOne_strip (l : List Char) :
    subWsOne (strip l) = List.intercalate [' '] (wordsBy l) := by
  induction l using wordsBy.induct with
  | case1 => simp [strip, lstrip, rstrip, wordsBy_nil, subWsOne_nil, intercalate_sp_nil]
  | case2 c cs hc ih =>
    have hc' : isSpace c = true := by simpa using hc
    rw [wordsBy_cons_space c cs hc',
      show strip (c :: cs) = strip cs from by simp [strip, lstrip_cons_space c cs hc']]
    exact ih
  | case3 c cs hc ih =>
    have hcf : isSpace c = false := by simpa using hc
    have ht : ∀ d ∈ cs.takeWhile (fun d => !isSpace d), isSpace d = false := by
      intro d hd
      simpa using List.mem_takeWhile_imp hd
    have hct : ∀ d ∈ c :: cs.takeWhile (fun d => !isSpace d), isSpace d = false := by
      intro d hd
      rcases List.mem_cons.1 hd with rfl | hd'
      · exact hcf
      · exact ht d hd'
    have h1 : strip (c :: cs) = rstrip (c :: cs) := by
      simp [strip, lstrip_cons_nonspace c cs hcf]
    have h2 : c :: cs = (c :: cs.takeWhile (fun d => !isSpace d)) ++
        cs.dropWhile (fun d => !isSpace d) := by
      rw [List.cons_append, List.takeWhile_append_dropWhile]
    by_cases hr : rstrip (cs.dropWhile (fun d => !isSpace d)) = []
    · have hwr : wordsBy (cs.dropWhile (fun d => !isSpace d)) = [] :=
        (wordsBy_eq_nil_iff _).2 (allspace_of_rstrip_eq_nil _ hr)
      rw [wordsBy_cons_nonspace c cs hcf, hwr, h1, h2,
        rstrip_append_of_nil _ _ hr, rstrip_of_nonspace _ hct]
      have h3 := subWsOne_append_nonspace (c :: cs.takeWhile (fun d => !isSpace d)) [] hct
      rw [List.append_nil] at h3
      rw [h3, subWsOne_nil, List.append_nil, intercalate_sp_singleton]
    · obtain ⟨d, r', hrr⟩ : ∃ d r', cs.dropWhile (fun d => !isSpace d) = d :: r' := by
        rcases hdw : cs.dropWhile (fun d => !isSpace d) with _ | ⟨d, r'⟩
        · rw [hdw] at hr
          exact absurd rfl hr
        · exact ⟨d, r', rfl⟩
      have hd : isSpace d = true := by
        simpa using dropWhile_head_false cs d r' hrr
      have hrs' : rstrip r' ≠ [] := by
        intro h0
        apply hr
        rw [hrr]
        simp [rstrip, h0, hd]
      have h3 : rstrip (cs.dropWhile (fun d => !isSpace d)) = d :: rstrip r' := by
        rw [hrr]
        exact rstrip_cons_of_ne _ _ hrs'
      have hwr : wordsBy (cs.dropWhile (fun d => !isSpace d)) ≠ [] := by
        rw [Ne, wordsBy_eq_nil_iff]
        intro hall
        exact hr (rstrip_eq_nil _ hall)
      have h4 : strip (cs.dropWhile (fun d => !isSpace d)) = rstrip (lstrip r') := by
        rw [hrr]
        simp [strip, lstrip_cons_space d r' hd]
      rw [wordsBy_cons_nonspace c cs hcf, intercalate_cons_of_ne _ _ _ hwr, ← ih, h4,
        h1, h2, rstrip_append_of_ne _ _ hr, h3,
        subWsOne_append_nonspace _ _ hct, subWsOne_cons_space d _ hd]
      have h5 : (rstrip r').dropWhile isSpace = rstrip (lstrip r') := by
        rw [show (rstrip r').dropWhile isSpace = lstrip (rstrip r') from rfl,
          lstrip_rstrip_comm r']
      rw [h5]
      simp

/-- Replacing the no-break space by an ordinary space does not change the
whitespace-separated tokens. -/
theorem wordsBy_replace_nbsp (l : List Char) :
    wordsBy (replaceCh '\u00A0' ' ' l) = wordsBy l := by
  have hsp : ∀ c : Char, isSpace (if c = '\u00A0' then ' ' else c) = isSpace c := by
    intro c
    by_cases h : c = '\u00A0'
    · simp [h]
      decide
    · simp [h]
  have hid : ∀ c : Char, isSpace c = false → (if c = '\u00A0' then ' ' else c) = c := by
    intro c h
    have : c ≠ '\u00A0' := by
      rintro rfl
      simp [isSpace] at h
    simp [this]
  induction l using wordsBy.induct with
  | case1 => rfl
  | case2 c cs hc ih =>
    have hc' : isSpace c = true := by simpa using hc
    rw [replaceCh, List.map_cons, wordsBy_cons_space _ _ (by rw [hsp c]; exact hc'),
      wordsBy_cons_space c cs hc']
    exact ih
  | case3 c cs hc ih =>
    have hcf : isSpace c = false := by simpa using hc
    rw [replaceCh, List.map_cons, hid c hcf,
      wordsBy_cons_nonspace c _ hcf, wordsBy_cons_nonspace c cs hcf]
    have hpres : (fun d => !isSpace d) ∘ (fun c => if c = '\u00A0' then ' ' else c) =
        fun d => !isSpace d := by
      funext x
      simp [hsp x]
    have htk : (cs.map (fun c => if c = '\u00A0' then ' ' else c)).takeWhile
        (fun d => !isSpace d) = cs.takeWhile (fun d => !isSpace d) := by
      rw [List.takeWhile_map, hpres]
      conv_rhs => rw [← List.map_id (cs.takeWhile (fun d => !isSpace d))]
      apply List.map_congr_left
      intro a ha
      have := List.mem_takeWhile_imp ha
      exact hid a (by simpa using this)
    have hdr : (cs.map (fun c => if c = '\u00A0' then ' ' else c)).dropWhile
        (fun d => !isSpace d) =
        (cs.dropWhile (fun d => !isSpace d)).map (fun c => if c = '\u00A0' then ' ' else c) := by
      rw [List.dropWhile_map, hpres]
    rw [htk, hdr]
    exact congrArg _ ih

/-- Every token produced by `wordsBy` is nonempty. -/
theorem wordsBy_word_ne_nil (l : List Char) : ∀ w ∈ wordsBy l, w ≠ [] := by
  induction l using wordsBy.induct with
  | case1 => simp [wordsBy_nil]
  | case2 c cs hc ih =>
    rw [wordsBy_cons_space c cs (by simpa using hc)]
    exact ih
  | case3 c cs hc ih =>
    rw [wordsBy_cons_nonspace c cs (by simpa using hc)]
    intro w hw
    rcases List.mem_cons.1 hw with rfl | hw'
    · simp
    · exact ih w hw'

/-- Python `str.isdigit()` restricted to ASCII decimal digits (the only
digit characters appearing in the URLs handled here): true iff the string
is nonempty and consists of digits only. -/
def pyIsDigit (l : List Char) : Bool :=
  !l.isEmpty && l.all (fun c => c.isDigit)

theorem intercalate_sp_ne_nil (ws : List (List Char)) (hne : ws ≠ [])
    (hw : ∀ w ∈ ws, w ≠ []) : List.intercalate [' '] ws ≠ [] := by
  rcases ws with _ | ⟨w, ws'⟩
  · exact absurd rfl hne
  · rcases ws' with _ | ⟨v, ws''⟩
    · rw [intercalate_sp_singleton]
      exact hw w (List.mem_cons_self ..)
    · rw [intercalate_cons_of_ne _ _ _ (by simp)]
      simp [hw w (List.mem_cons_self ..)]

end PyStr

namespace PyUrl

/-- Split at the first occurrence of `sep` (Python `str.split(sep, 1)` when
the separator occurs; `none` when it does not). -/
def splitOnce (sep : Char) : List Char → Option (List Char × List Char)
  | [] => none
  | c :: cs =>
    if c = sep then some ([], cs)
    else (splitOnce sep cs).map (fun p => (c :: p.1, p.2))

/-- Python `str.split(sep)` for a one-character separator: every occurrence
splits, empty fields kept. -/
def splitAll (sep : Char) : List Char → List (List Char)
  | [] => [[]]
  | c :: cs =>
    if c = sep then [] :: splitAll sep cs
    else
      match splitAll sep cs with
      | [] => [[c]]
      | t :: ts => (c :: t) :: ts

theorem splitOnce_of_not_mem (sep : Char) (l : List Char) (h : sep ∉ l) :
    splitOnce sep l = none := by
  induction l with
  | nil => rfl
  | cons c cs ih =>
    have hc : c ≠ sep := fun e => h (e ▸ List.mem_cons_self ..)
    rw [splitOnce, if_neg hc, ih (fun hm => h (List.mem_cons_of_mem _ hm))]
    rfl

theorem splitOnce_append_of_not_mem (sep : Char) (xs ys : List Char) (h : sep ∉ xs) :
    splitOnce sep (xs ++ ys) =
      (splitOnce sep ys).map (fun p => (xs ++ p.1, p.2)) := by
  induction xs with
  | nil => simp
  | cons c xs' ih =>
    have hc : c ≠ sep := fun e => h (e ▸ List.mem_cons_self ..)
    rw [List.cons_append, splitOnce, if_neg hc,
      ih (fun hm => h (List.mem_cons_of_mem _ hm))]
    rcases splitOnce sep ys with _ | ⟨a, b⟩ <;> rfl

theorem splitOnce_append_first (sep : Char) (xs ys : List Char) (h : sep ∉ xs) :
    splitOnce sep (xs ++ sep :: ys) = some (xs, ys) := by
  rw [splitOnce_append_of_not_mem sep xs _ h, splitOnce, if_pos rfl]
  simp

theorem splitAll_of_not_mem (sep : Char) (l : List Char) (h : sep ∉ l) :
    splitAll sep l = [l] := by
  induction l with
  | nil => rfl
  | cons c cs ih =>
    have hc : c ≠ sep := fun e => h (e ▸ List.mem_cons_self ..)
    rw [splitAll, if_neg hc, ih (fun hm => h (List.mem_cons_of_mem _ hm))]

theorem splitAll_append_first (sep : Char) (xs ys : List Char) (h : sep ∉ xs) :
    splitAll sep (xs ++ sep :: ys) = xs :: splitAll sep ys := by
  induction xs with
  | nil => simp [splitAll]
  | cons c xs' ih =>
    have hc : c ≠ sep := fun e => h (e ▸ List.mem_cons_self ..)
    rw [List.cons_append, splitAll, if_neg hc,
      ih (fun hm => h (List.mem_cons_of_mem _ hm))]

/-- The hexadecimal value of a digit character (0 for others). -/
def hexVal (c : Char) : Nat :=
  if c.isDigit then c.toNat - '0'.toNat
  else if 'a' ≤ c ∧ c ≤ 'f' then c.toNat - 'a'.toNat + 10
  else if 'A' ≤ c ∧ c ≤ 'F' then c.toNat - 'A'.toNat + 10
  else 0

/-- A hexadecimal digit character. -/
def isHexDig (c : Char) : Bool :=
  c.isDigit || ('a' ≤ c && c ≤ 'f') || ('A' ≤ c && c ≤ 'F')

/-- A percent escape at the front of `rest`: two hex digits decode to the
character with that code. -/
def percentDecode (rest : List Char) : Option (Char × List Char) :=
  match rest with
  | h1 :: h2 :: rest2 =>
    if isHexDig h1 && isHexDig h2 then
      some (Char.ofNat (16 * hexVal h1 + hexVal h2), rest2)
    else none
  | _ => none

theorem percentDecode_length (rest : List Char) (ch : Char) (r2 : List Char)
    (h : percentDecode rest = some (ch, r2)) : r2.length + 2 = rest.length := by
  match rest with
  | [] => simp [percentDecode] at h
  | [a] => simp [percentDecode] at h
  | a :: b :: t =>
    rw [percentDecode] at h
    by_cases hd : (isHexDig a && isHexDig b) = true
    · rw [if_pos hd] at h
      obtain ⟨-, rfl⟩ := Prod.mk.injEq .. ▸ Option.some.inj h
      simp
    · rw [if_neg hd] at h
      exact absurd h (by simp)

/-- `urllib.parse.unquote_plus` restricted to single-byte escapes: `+`
becomes a space and `%HH` (two hex digits) the character with that code;
anything else passes through.  On the plain digit strings handled by the
claims this is the identity, as in CPython. -/
def unquotePlus : List Char → List Char
  | [] => []
  | c :: rest =>
    if c = '+' then ' ' :: unquotePlus rest
    else if c = '%' then
      match hpd : percentDecode rest with
      | some (ch, rest2) => ch :: unquotePlus rest2
      | none => c :: unquotePlus rest
    else c :: unquotePlus rest
termination_by l => l.length
decreasing_by
  · simp
  · have := percentDecode_length cs ch rest2 hpd
    simp only [List.length_cons]
    omega
  · simp
  · simp

theorem unquotePlus_nil : unquotePlus [] = [] := by
  conv_lhs => rw [unquotePlus.eq_def]

theorem unquotePlus_cons_plain (c : Char) (cs : List Char)
    (h1 : c ≠ '+') (h2 : c ≠ '%') :
    unquotePlus (c :: cs) = c :: unquotePlus cs := by
  conv_lhs => rw [unquotePlus.eq_def]
  simp only [if_neg h1, if_neg h2]

theorem unquotePlus_of_plain (l : List Char)
    (h : ∀ c ∈ l, c ≠ '+' ∧ c ≠ '%') : unquotePlus l = l := by
  induction l with
  | nil => exact unquotePlus_nil
  | cons c cs ih =>
    have hc := h c (List.mem_cons_self ..)
    rw [unquotePlus_cons_plain c cs hc.1 hc.2,
      ih (fun x hx => h x (List.mem_cons_of_mem _ hx))]

/-- `urllib.parse.parse_qs` with default arguments, kept as an association
list in field order: fields split on `&`; each field split once on `=`;
an empty field, a field with no `=`, or one with an empty value is dropped
(`keep_blank_values=False`); names and values are unquoted. -/
def parseQsl (query : List Char) : List (List Char × List Char) :=
  (splitAll '&' query).filterMap fun field =>
    match splitOnce '=' field with
    | none => none
    | some (k, v) => if v = [] then none else some (unquotePlus k, unquotePlus v)

/-- `parse_qs(query).get(key)` reduced to the first value listed for `key`
(every use in the spiders reads element `[0]` of the value list, and a
present key always has a nonempty value list). -/
def qsFirst (qs : List (List Char × List Char)) (key : List Char) : Option (List Char) :=
  (qs.find? (fun p => p.1 == key)).map Prod.snd

/-- The `scheme_chars` of `urllib.parse`: ASCII letters, digits, `+`, `-`,
`.`. -/
def isSchemeChar (c : Char) : Bool :=
  c.isAlpha || c.isDigit || c = '+' || c = '-' || c = '.'

/-- A C0 control or space, stripped from the left end of a URL before
parsing (`_WHATWG_C0_CONTROL_OR_SPACE`). -/
def isC0OrSpace (c : Char) : Bool := c.toNat ≤ 32

/-- Tab, carriage return, line feed: removed anywhere in the URL before
parsing (`_UNSAFE_URL_BYTES_TO_REMOVE`). -/
def isUnsafeUrlChar (c : Char) : Bool := c = '\t' || c = '\r' || c = '\n'

/-- The result quintuple of `urllib.parse.urlsplit`. -/
structure UrlParts where
  scheme : List Char
  netloc : List Char
  path : List Char
  query : List Char
  fragment : List Char
deriving DecidableEq

/-- Scheme recognition of `urlsplit`: the text before the first `:` is the
scheme when it is nonempty, starts with an ASCII letter and consists of
scheme characters; it is then lower-cased and removed. -/
def schemeSplit (u : List Char) : List Char × List Char :=
  match splitOnce ':' u with
  | some (before, after) =>
    match before with
    | [] => ([], u)
    | c :: rest =>
      if c.isAlpha && (c :: rest).all isSchemeChar then
        ((c :: rest).map Char.toLower, after)
      else ([], u)
  | none => ([], u)

/-- A character ending the netloc (`_splitnetloc` stops at `/`, `?`, `#`). -/
def isNetlocEnd (c : Char) : Bool := c = '/' || c = '?' || c = '#'

/-- Netloc extraction of `urlsplit`: after a leading `//` the netloc runs to
the first `/`, `?` or `#`; a mismatched `[`/`]` raises `ValueError`
("Invalid IPv6 URL"), modelled as `Except.error`. -/
def netlocSplit (u : List Char) : Except String (List Char × List Char) :=
  match u with
  | c1 :: c2 :: rest =>
    if c1 = '/' ∧ c2 = '/' then
      let netloc := rest.takeWhile (fun c => !isNetlocEnd c)
      let rest2 := rest.dropWhile (fun c => !isNetlocEnd c)
      if (netloc.contains '[' && !netloc.contains ']') ||
          (netloc.contains ']' && !netloc.contains '[') then
        .error "Invalid IPv6 URL"
      else .ok (netloc, rest2)
    else .ok ([], u)
  | _ => .ok ([], u)

/-- `urllib.parse.urlsplit` (used through `urlparse`; the spiders never read
the `params` component, so the two agree here): left-strip C0 controls and
spaces, drop tab/CR/LF, recognise the scheme, split off the netloc (with
the mismatched-bracket `ValueError`), then fragment and query.  The
additional bracketed-host validation of newer CPython is not modelled; no
claim involves a bracketed host. -/
def pyUrlsplit (url : List Char) : Except String UrlParts :=
  let u0 := (url.dropWhile isC0OrSpace).filter (fun c => !isUnsafeUrlChar c)
  let (scheme, u1) := schemeSplit u0
  match netlocSplit u1 with
  | .error e => .error e
  | .ok (netloc, u2) =>
    let (u3, fragment) :=
      match splitOnce '#' u2 with
      | some p => p
      | none => (u2, [])
    let (path, query) :=
      match splitOnce '?' u3 with
      | some p => p
      | none => (u3, [])
    .ok ⟨scheme, netloc, path, query, fragment⟩

end PyUrl

/-- `_clean` from `src/crawler/finance_test/spiders/naver_news_spider.py`
lines 11–15 (the same helper appears verbatim in `naver_item_news.py` and
in the `src/finance_test` spiders): falsy input (`None` or the empty
string) gives `None`; otherwise replace the no-break space by a space,
`strip()`, collapse every `\s+` run to one space, and return the result
`or None`. -/
def _clean (s : Option String) : Option String :=
  match s with
  | none => none
  | some s =>
    if s.data.isEmpty then none
    else
      let t := PyStr.subWsOne (PyStr.strip (PyStr.replaceCh ' ' ' ' s.data))
      if t.isEmpty then none else some (String.mk t)

/-- Behaviour of `_clean` on present strings: the result is exactly the
whitespace-separated tokens joined by single spaces (so no leading or
trailing whitespace and no doubled separator), and `None` exactly when
there are no tokens. -/
theorem clean_characterization (s : String) :
    _clean (some s) =
      (if PyStr.wordsBy s.data = [] then none
       else some (String.mk (List.intercalate [' '] (PyStr.wordsBy s.data)))) := by
  have hmain : PyStr.subWsOne (PyStr.strip (PyStr.replaceCh ' ' ' ' s.data)) =
      List.intercalate [' '] (PyStr.wordsBy s.data) := by
    rw [PyStr.subWsOne_strip, PyStr.wordsBy_replace_nbsp]
  show (if s.data.isEmpty = true then none
      else if (PyStr.subWsOne (PyStr.strip (PyStr.replaceCh ' ' ' ' s.data))).isEmpty = true
        then none
        else some (String.mk (PyStr.subWsOne (PyStr.strip (PyStr.replaceCh ' ' ' ' s.data))))) = _
  by_cases hw : PyStr.wordsBy s.data = []
  · have ht : PyStr.subWsOne (PyStr.strip (PyStr.replaceCh ' ' ' ' s.data)) = [] := by
      rw [hmain, hw, PyStr.intercalate_sp_nil]
    rw [if_pos hw]
    by_cases hempty : s.data.isEmpty = true
    · rw [if_pos hempty]
    · rw [if_neg hempty, ht]
      rfl
  · have ht : PyStr.subWsOne (PyStr.strip (PyStr.replaceCh ' ' ' ' s.data)) ≠ [] := by
      rw [hmain]
      exact PyStr.intercalate_sp_ne_nil _ hw (PyStr.wordsBy_word_ne_nil _)
    have hne : s.data.isEmpty = false := by
      rcases hd : s.data with _ | ⟨c, cs⟩
      · rw [hd, PyStr.wordsBy_nil] at hw
        exact absurd rfl hw
      · rfl
    rw [if_neg hw, if_neg (by simp [hne]), if_neg (by simpa using ht), hmain]


namespace ItemNewsCrawler

/-- The path phase of `_extract_oid_aid_from_url`
(`src/crawler/finance_test/spiders/naver_item_news.py` lines 70–75):
`len(parts) >= 3 and parts[-3] == "article"` with both trailing segments
`isdigit()`.  Negative indexing is expressed by matching on the reversed
segment list: the last three segments are the first three of the reverse. -/
def pathExtract (parts : List (List Char)) : Option (List Char × List Char) :=
  match parts.reverse with
  | aid :: oid :: art :: _ =>
    if art = "article".data ∧ PyStr.pyIsDigit oid ∧ PyStr.pyIsDigit aid then some (oid, aid)
    else none
  | _ => none

/-- The query phase (lines 76–80): first value of `office_id` else `oid`,
and of `article_id` else `aid`. -/
def queryExtract (query : List Char) : Option (List Char) × Option (List Char) :=
  let qs := PyUrl.parseQsl query
  (PyUrl.qsFirst qs "office_id".data <|> PyUrl.qsFirst qs "oid".data,
   PyUrl.qsFirst qs "article_id".data <|> PyUrl.qsFirst qs "aid".data)

/-- The body of the `try` block of `_extract_oid_aid_from_url`: parse the
URL, try the path pattern, fall back to the query string. -/
def extractBody (url : List Char) :
    Except String (Option (List Char) × Option (List Char)) :=
  match PyUrl.pyUrlsplit url with
  | .error e => .error e
  | .ok p =>
    let parts := (PyUrl.splitAll '/' p.path).filter (fun x => !x.isEmpty)
    match pathExtract parts with
    | some (oid, aid) => .ok (some oid, some aid)
    | none => .ok (queryExtract p.query)

/-- `_extract_oid_aid_from_url` (lines 63–82): the `except Exception`
handler converts any raised error to `(None, None)`. -/
def _extract_oid_aid_from_url (url : String) : Option String × Option String :=
  match extractBody url.data with
  | .error _ => (none, none)
  | .ok (oid, aid) => (oid.map String.mk, aid.map String.mk)

/-- `_canonical_article_url` (lines 85–88): `None` unless both ids are
truthy (present and nonempty), else the fixed template. -/
def _canonical_article_url (oid aid : Option String) : Option String :=
  match oid, aid with
  | some o, some a =>
    if o.data ≠ [] ∧ a.data ≠ [] then
      some ("https://news.naver.com/article/" ++ o ++ "/" ++ a)
    else none
  | _, _ => none

/-- The canonical-link computation of `parse_article` (line 218):
`link = _canonical_article_url(oid, aid) or response.url` — the canonical
value when produced is never the empty string, so Python's `or` is
`Option.getD`. -/
def canonical_link (url : String) : String :=
  let p := _extract_oid_aid_from_url url
  (_canonical_article_url p.1 p.2).getD url

end ItemNewsCrawler

namespace Uuid

/-- Left rotation of a 32-bit word (`x` below `2^32`). -/
def rotl (n x : Nat) : Nat := ((x <<< n) % 4294967296) ||| (x >>> (32 - n))

/-- Word lookup with default 0. -/
def wordAt (ws : List Nat) (i : Nat) : Nat := ws.getD i 0

/-- Big-endian 32-bit words from a byte list (length a multiple of 4). -/
def toWords : List Nat → List Nat
  | b0 :: b1 :: b2 :: b3 :: rest =>
    (((b0 * 256 + b1) * 256 + b2) * 256 + b3) :: toWords rest
  | _ => []

/-- One SHA-1 schedule-extension step. -/
def extendStep (cur : List Nat) : List Nat :=
  cur ++ [rotl 1 ((((wordAt cur (cur.length - 3)) ^^^ (wordAt cur (cur.length - 8))) ^^^
    (wordAt cur (cur.length - 14))) ^^^ (wordAt cur (cur.length - 16)))]

/-- The 80-word SHA-1 message schedule of one chunk. -/
def schedule (ws : List Nat) : List Nat := extendStep^[64] ws

/-- One SHA-1 compression round. -/
def sha1Round (ws : List Nat) (st : Nat × Nat × Nat × Nat × Nat) (i : Nat) :
    Nat × Nat × Nat × Nat × Nat :=
  let (a, b, c, d, e) := st
  let f :=
    if i < 20 then (b &&& c) ||| ((b ^^^ 4294967295) &&& d)
    else if i < 40 then (b ^^^ c) ^^^ d
    else if i < 60 then ((b &&& c) ||| (b &&& d)) ||| (c &&& d)
    else (b ^^^ c) ^^^ d
  let k :=
    if i < 20 then 1518500249
    else if i < 40 then 1859775393
    else if i < 60 then 2400959708
    else 3395469782
  let temp := (rotl 5 a + f + e + k + wordAt ws i) % 4294967296
  (temp, a, rotl 30 b, c, d)

/-- SHA-1 compression of one 64-byte chunk. -/
def processChunk (h : Nat × Nat × Nat × Nat × Nat) (chunk : List Nat) :
    Nat × Nat × Nat × Nat × Nat :=
  let (h0, h1, h2, h3, h4) := h
  let (a, b, c, d, e) := (List.range 80).foldl (sha1Round (schedule (toWords chunk)))
    (h0, h1, h2, h3, h4)
  ((h0 + a) % 4294967296, (h1 + b) % 4294967296, (h2 + c) % 4294967296,
   (h3 + d) % 4294967296, (h4 + e) % 4294967296)

/-- Split a byte list into 64-byte chunks. -/
def chunks64 (l : List Nat) : List (List Nat) :=
  if h : l.isEmpty then [] else l.take 64 :: chunks64 (l.drop 64)
termination_by l.length
decreasing_by
  rcases l with _ | x
  · simp at h
  · simp only [List.length_drop, List.length_cons]
    omega

/-- A 64-bit big-endian byte encoding. -/
def be64 (n : Nat) : List Nat :=
  [n / 72057594037927936 % 256, n / 281474976710656 % 256,
   n / 1099511627776 % 256, n / 4294967296 % 256,
   n / 16777216 % 256, n / 65536 % 256, n / 256 % 256, n % 256]

/-- SHA-1 padding: `0x80`, zero bytes to 56 mod 64, then the bit length. -/
def sha1Pad (msg : List Nat) : List Nat :=
  msg ++ 128 :: List.replicate ((120 - (msg.length + 1) % 64) % 64) 0 ++
    be64 (8 * msg.length)

/-- A 32-bit big-endian byte encoding. -/
def wordToBytes (w : Nat) : List Nat :=
  [w / 16777216 % 256, w / 65536 % 256, w / 256 % 256, w % 256]

/-- SHA-1 of a byte list, as its 20-byte digest. -/
def sha1 (msg : List Nat) : List Nat :=
  let fin := (chunks64 (sha1Pad msg)).foldl processChunk
    (1732584193, 4023233417, 2562383102, 271733878, 3285377520)
  wordToBytes fin.1 ++ wordToBytes fin.2.1 ++ wordToBytes fin.2.2.1 ++
    wordToBytes fin.2.2.2.1 ++ wordToBytes fin.2.2.2.2

/-- UTF-8 encoding of one character. -/
def utf8Char (c : Char) : List Nat :=
  let n := c.toNat
  if n < 128 then [n]
  else if n < 2048 then [192 + n / 64, 128 + n % 64]
  else if n < 65536 then [224 + n / 4096, 128 + n / 64 % 64, 128 + n % 64]
  else [240 + n / 262144, 128 + n / 4096 % 64, 128 + n / 64 % 64, 128 + n % 64]

/-- UTF-8 encoding of a character list. -/
def utf8Bytes (l : List Char) : List Nat := (l.map utf8Char).join

/-- The bytes of `uuid.NAMESPACE_URL`
(6ba7b811-9dad-11d1-80b4-00c04fd430c8). -/
def NAMESPACE_URL : List Nat :=
  [107, 167, 184, 17, 157, 173, 17, 209, 128, 180, 0, 192, 79, 212, 48, 200]

/-- A lowercase hexadecimal digit. -/
def hexDigitCh (n : Nat) : Char :=
  if n < 10 then Char.ofNat (48 + n) else Char.ofNat (87 + n)

/-- Two lowercase hexadecimal digits of one byte. -/
def byteHex (b : Nat) : List Char := [hexDigitCh (b / 16), hexDigitCh (b % 16)]

/-- Lowercase hexadecimal of a byte list. -/
def bytesHex (bs : List Nat) : List Char := (bs.map byteHex).join

/-- `str(uuid.uuid5(ns, name))`: SHA-1 of namespace bytes plus the UTF-8
name, truncated to 16 bytes, with the version (5) and variant bits set,
formatted 8-4-4-4-12 in lowercase hex. -/
def uuid5 (ns : List Nat) (name : List Char) : List Char :=
  let d0 := (sha1 (ns ++ utf8Bytes name)).take 16
  let d1 := d0.set 6 ((wordAt d0 6 &&& 15) ||| 80)
  let d := d1.set 8 ((wordAt d1 8 &&& 63) ||| 128)
  bytesHex (d.take 4) ++ '-' :: bytesHex ((d.drop 4).take 2) ++
    '-' :: bytesHex ((d.drop 6).take 2) ++ '-' :: bytesHex ((d.drop 8).take 2) ++
    '-' :: bytesHex (d.drop 10)

end Uuid

namespace ItemNewsFinance

/-- `_make_uuid` (`src/finance_test/spiders/naver_item_news.py` lines
200–201): `str(uuid5(NAMESPACE_URL, canonical_url_or_any))`. -/
def _make_uuid (s : String) : String :=
  String.mk (Uuid.uuid5 Uuid.NAMESPACE_URL s.data)

end ItemNewsFinance

namespace ItemNewsCrawler

/-- The identifier computation of `parse_article`
(`src/crawler/finance_test/spiders/naver_item_news.py` lines 265–267):
`uuid_val = str(uuid5(NAMESPACE_URL, uid_base))` with `uid_base = link`,
the canonical link. -/
def record_uuid (url : String) : String :=
  ItemNewsFinance._make_uuid (canonical_link url)

end ItemNewsCrawler

namespace UrlFacts

open PyUrl

/-- The routine character facts about decimal digits used while stepping
the URL parser over abstract digit strings. -/
theorem digit_url_facts (c : Char) (h : c.isDigit = true) :
    isUnsafeUrlChar c = false ∧ isC0OrSpace c = false ∧
    c ≠ ':' ∧ c ≠ '/' ∧ c ≠ '?' ∧ c ≠ '#' ∧ c ≠ '&' ∧ c ≠ '=' ∧
    c ≠ '+' ∧ c ≠ '%' ∧ isNetlocEnd c = false := by
  have hv : 48 ≤ c.toNat ∧ c.toNat ≤ 57 := by
    simp [Char.isDigit, Char.le_def] at h
    exact ⟨UInt32.le_def.mp h.1, UInt32.le_def.mp h.2⟩
  have hne : ∀ d : Char, d.toNat < 48 ∨ 57 < d.toNat → c ≠ d := by
    intro d hd he
    subst he
    omega
  refine ⟨?_, ?_, hne ':' (by decide), hne '/' (by decide), hne '?' (by decide),
    hne '#' (by decide), hne '&' (by decide), hne '=' (by decide),
    hne '+' (by decide), hne '%' (by decide), ?_⟩
  · simp [isUnsafeUrlChar, hne '\t' (by decide), hne '\r' (by decide),
      hne '\n' (by decide)]
  · simp only [isC0OrSpace, decide_eq_false_iff_not]
    omega
  · simp [isNetlocEnd, hne '/' (by decide), hne '?' (by decide), hne '#' (by decide)]

theorem digit_not_mem (sep : Char) (l : List Char) (hl : ∀ c ∈ l, c.isDigit = true)
    (hsep : sep.isDigit = false) : sep ∉ l := by
  intro hm
  rw [hl sep hm] at hsep
  exact absurd hsep (by simp)

/-- `takeWhile` over a block that satisfies the predicate followed by a
failing head. -/
theorem takeWhile_append_head_neg {p : Char → Bool} (xs : List Char) (y : Char)
    (ys : List Char) (hxs : ∀ c ∈ xs, p c = true) (hy : p y = false) :
    (xs ++ y :: ys).takeWhile p = xs := by
  induction xs with
  | nil => simp [List.takeWhile_cons, hy]
  | cons c xs' ih =>
    rw [List.cons_append, List.takeWhile_cons, hxs c (List.mem_cons_self ..),
      ih (fun x hx => hxs x (List.mem_cons_of_mem _ hx))]
    simp

/-- `dropWhile` over the same shape. -/
theorem dropWhile_append_head_neg {p : Char → Bool} (xs : List Char) (y : Char)
    (ys : List Char) (hxs : ∀ c ∈ xs, p c = true) (hy : p y = false) :
    (xs ++ y :: ys).dropWhile p = y :: ys := by
  induction xs with
  | nil => simp [List.dropWhile_cons, hy]
  | cons c xs' ih =>
    rw [List.cons_append, List.dropWhile_cons, if_pos (hxs c (List.mem_cons_self ..)),
      ih (fun x hx => hxs x (List.mem_cons_of_mem _ hx))]


theorem dropWhile_all_false {p : Char → Bool} (l : List Char) (h : ∀ c ∈ l, p c = false) :
    l.dropWhile p = l := by
  cases l with
  | nil => rfl
  | cons c cs => simp [List.dropWhile_cons, h c (List.mem_cons_self ..)]

theorem schemeSplit_https (rest : List Char) :
    PyUrl.schemeSplit ("https".data ++ ':' :: rest) = ("https".data, rest) := by
  unfold PyUrl.schemeSplit
  rw [PyUrl.splitOnce_append_first ':' _ _ (by decide)]
  rw [show ("https".data : List Char) = 'h' :: 't' :: 't' :: 'p' :: 's' :: [] from by decide]
  simp only []
  rw [if_pos (by decide : ('h'.isAlpha &&
    (('h' :: 't' :: 't' :: 'p' :: 's' :: []).all PyUrl.isSchemeChar)) = true)]
  rw [show List.map Char.toLower ['h', 't', 't', 'p', 's'] = ['h', 't', 't', 'p', 's'] from by decide]

theorem netlocSplit_hosted (host tail : List Char)
    (hhost : ∀ c ∈ host, PyUrl.isNetlocEnd c = false)
    (hbl : '[' ∉ host) (hbr : ']' ∉ host) :
    PyUrl.netlocSplit ('/' :: '/' :: (host ++ '/' :: tail)) =
      .ok (host, '/' :: tail) := by
  unfold PyUrl.netlocSplit
  simp only []
  rw [if_pos (by decide)]
  rw [takeWhile_append_head_neg (p := fun c => !PyUrl.isNetlocEnd c) host '/' tail
      (fun c hc => by simp [hhost c hc]) (by decide),
    dropWhile_append_head_neg (p := fun c => !PyUrl.isNetlocEnd c) host '/' tail
      (fun c hc => by simp [hhost c hc]) (by decide)]
  rw [if_neg ?_]
  simp only [Bool.or_eq_true, Bool.and_eq_true, Bool.not_eq_true']
  push_neg
  constructor
  · intro h1
    exact absurd (by simpa using h1) hbl
  · intro h1
    exact absurd (by simpa using h1) hbr

theorem pyUrlsplit_https (host tail : List Char)
    (hhost : ∀ c ∈ host, PyUrl.isNetlocEnd c = false ∧ PyUrl.isC0OrSpace c = false ∧
      PyUrl.isUnsafeUrlChar c = false ∧ c ≠ '[' ∧ c ≠ ']')
    (htail : ∀ c ∈ tail, PyUrl.isC0OrSpace c = false ∧ PyUrl.isUnsafeUrlChar c = false)
    (hfrag : '#' ∉ tail) :
    PyUrl.pyUrlsplit ("https".data ++ ':' :: '/' :: '/' :: (host ++ '/' :: tail)) =
      .ok ⟨"https".data, host,
        (match PyUrl.splitOnce '?' ('/' :: tail) with
         | some pq => pq.1
         | none => '/' :: tail),
        (match PyUrl.splitOnce '?' ('/' :: tail) with
         | some pq => pq.2
         | none => []), []⟩ := by
  have hmem : ∀ c ∈ "https".data ++ ':' :: '/' :: '/' :: (host ++ '/' :: tail),
      PyUrl.isC0OrSpace c = false ∧ PyUrl.isUnsafeUrlChar c = false := by
    intro c hc
    simp only [List.mem_append, List.mem_cons] at hc
    rcases hc with (rfl | rfl | rfl | rfl | rfl | h0) | rfl | rfl | rfl | hh | rfl | ht
    · exact ⟨by decide, by decide⟩
    · exact ⟨by decide, by decide⟩
    · exact ⟨by decide, by decide⟩
    · exact ⟨by decide, by decide⟩
    · exact ⟨by decide, by decide⟩
    · simp at h0
    · exact ⟨by decide, by decide⟩
    · exact ⟨by decide, by decide⟩
    · exact ⟨by decide, by decide⟩
    · exact ⟨(hhost c hh).2.1, (hhost c hh).2.2.1⟩
    · exact ⟨by decide, by decide⟩
    · exact htail c ht
  unfold PyUrl.pyUrlsplit
  dsimp only
  rw [dropWhile_all_false _ (fun c hc => (hmem c hc).1),
    List.filter_eq_self.2 (fun c hc => by simp [(hmem c hc).2]),
    schemeSplit_https,
    netlocSplit_hosted host tail (fun c hc => (hhost c hc).1)
      (fun hm => (hhost _ hm).2.2.2.1 rfl) (fun hm => (hhost _ hm).2.2.2.2 rfl)]
  dsimp only
  rw [PyUrl.splitOnce_of_not_mem '#' ('/' :: tail) (by
    intro hm
    rcases List.mem_cons.1 hm with h | h
    · exact absurd h (by decide)
    · exact hfrag h)]
  rcases hq : PyUrl.splitOnce '?' ('/' :: tail) with _ | pq <;> rfl

theorem splitAll_cons_sep (sep : Char) (cs : List Char) :
    PyUrl.splitAll sep (sep :: cs) = [] :: PyUrl.splitAll sep cs := by
  rw [PyUrl.splitAll, if_pos rfl]

theorem canonical_link_path (o a : List Char) (ho : o ≠ [])
    (hod : ∀ c ∈ o, c.isDigit = true) (ha : a ≠ [])
    (had : ∀ c ∈ a, c.isDigit = true) :
    ItemNewsCrawler.canonical_link
      (String.mk ("https://n.news.naver.com/article/".data ++ o ++ '/' :: a)) =
      String.mk ("https://news.naver.com/article/".data ++ (o ++ '/' :: a)) := by
  have hre : "https://n.news.naver.com/article/".data ++ o ++ '/' :: a =
      "https".data ++ ':' :: '/' :: '/' ::
        ("n.news.naver.com".data ++ '/' :: ("article".data ++ '/' :: (o ++ '/' :: a))) := by
    rw [show ("https://n.news.naver.com/article/".data : List Char) =
      "https".data ++ ':' :: '/' :: '/' ::
        ("n.news.naver.com".data ++ '/' :: ("article".data ++ ['/'])) from by decide]
    simp [List.append_assoc]
  have htail : ∀ c ∈ "article".data ++ '/' :: (o ++ '/' :: a),
      PyUrl.isC0OrSpace c = false ∧ PyUrl.isUnsafeUrlChar c = false := by
    intro c hc
    rcases List.mem_append.1 hc with h | h
    · exact ⟨(by decide : ∀ x ∈ "article".data, PyUrl.isC0OrSpace x = false) c h,
        (by decide : ∀ x ∈ "article".data, PyUrl.isUnsafeUrlChar x = false) c h⟩
    · rcases List.mem_cons.1 h with rfl | h2
      · exact ⟨by decide, by decide⟩
      · rcases List.mem_append.1 h2 with h3 | h3
        · exact ⟨(digit_url_facts c (hod c h3)).2.1, (digit_url_facts c (hod c h3)).1⟩
        · rcases List.mem_cons.1 h3 with rfl | h4
          · exact ⟨by decide, by decide⟩
          · exact ⟨(digit_url_facts c (had c h4)).2.1, (digit_url_facts c (had c h4)).1⟩
  have hfrag : '#' ∉ "article".data ++ '/' :: (o ++ '/' :: a) := by
    intro hm
    rcases List.mem_append.1 hm with h | h
    · exact absurd h (by decide)
    · rcases List.mem_cons.1 h with h1 | h2
      · exact absurd h1 (by decide)
      · rcases List.mem_append.1 h2 with h3 | h3
        · exact absurd (hod _ h3) (by decide)
        · rcases List.mem_cons.1 h3 with h4 | h4
          · exact absurd h4 (by decide)
          · exact absurd (had _ h4) (by decide)
  have hq : PyUrl.splitOnce '?' ('/' :: ("article".data ++ '/' :: (o ++ '/' :: a))) = none := by
    apply PyUrl.splitOnce_of_not_mem
    intro hm
    rcases List.mem_cons.1 hm with h0 | h0
    · exact absurd h0 (by decide)
    · rcases List.mem_append.1 h0 with h | h
      · exact absurd h (by decide)
      · rcases List.mem_cons.1 h with h1 | h2
        · exact absurd h1 (by decide)
        · rcases List.mem_append.1 h2 with h3 | h3
          · exact absurd (hod _ h3) (by decide)
          · rcases List.mem_cons.1 h3 with h4 | h4
            · exact absurd h4 (by decide)
            · exact absurd (had _ h4) (by decide)
  have hsplit : PyUrl.pyUrlsplit ("https://n.news.naver.com/article/".data ++ o ++ '/' :: a) =
      .ok ⟨"https".data, "n.news.naver.com".data,
        '/' :: ("article".data ++ '/' :: (o ++ '/' :: a)), [], []⟩ := by
    rw [hre, pyUrlsplit_https _ _ (by decide) htail hfrag, hq]
  have hoe : o.isEmpty = false := by
    rcases o with _ | _
    · exact absurd rfl ho
    · rfl
  have hae : a.isEmpty = false := by
    rcases a with _ | _
    · exact absurd rfl ha
    · rfl
  have hparts : (PyUrl.splitAll '/'
      ('/' :: ("article".data ++ '/' :: (o ++ '/' :: a)))).filter (fun x => !x.isEmpty) =
      ["article".data, o, a] := by
    rw [splitAll_cons_sep,
      PyUrl.splitAll_append_first '/' _ _ (by decide),
      PyUrl.splitAll_append_first '/' _ _ (digit_not_mem '/' o hod (by decide)),
      PyUrl.splitAll_of_not_mem '/' a (digit_not_mem '/' a had (by decide))]
    simp [List.filter, hoe, hae]
  have hpe : ItemNewsCrawler.pathExtract ["article".data, o, a] = some (o, a) := by
    unfold ItemNewsCrawler.pathExtract
    rw [show ((["article".data, o, a] : List (List Char)).reverse) =
      [a, o, "article".data] from by simp]
    dsimp only
    have h2 : PyStr.pyIsDigit o = true := by
      simp only [PyStr.pyIsDigit, hoe, Bool.not_false, Bool.true_and, List.all_eq_true]
      intro c hc
      exact hod c hc
    have h3 : PyStr.pyIsDigit a = true := by
      simp only [PyStr.pyIsDigit, hae, Bool.not_false, Bool.true_and, List.all_eq_true]
      intro c hc
      exact had c hc
    rw [if_pos ⟨rfl, h2, h3⟩]
  have hcan : ItemNewsCrawler._canonical_article_url
      (some (String.mk o)) (some (String.mk a)) =
      some ("https://news.naver.com/article/" ++ String.mk o ++ "/" ++ String.mk a) := by
    unfold ItemNewsCrawler._canonical_article_url
    dsimp only
    rw [if_pos ⟨ho, ha⟩]
  unfold ItemNewsCrawler.canonical_link ItemNewsCrawler._extract_oid_aid_from_url
    ItemNewsCrawler.extractBody
  rw [show (String.mk ("https://n.news.naver.com/article/".data ++ o ++ '/' :: a)).data =
    "https://n.news.naver.com/article/".data ++ o ++ '/' :: a from rfl, hsplit]
  dsimp only
  rw [hparts, hpe]
  dsimp only [Option.map]
  rw [hcan]
  dsimp only [Option.getD]
  apply String.ext
  simp only [String.data_append]
  simp [List.append_assoc]

theorem canonical_link_query (o a : List Char) (ho : o ≠ [])
    (hod : ∀ c ∈ o, c.isDigit = true) (ha : a ≠ [])
    (had : ∀ c ∈ a, c.isDigit = true) :
    ItemNewsCrawler.canonical_link
      (String.mk ("https://finance.naver.com/item/news_read.naver?office_id=".data ++
        o ++ "&article_id=".data ++ a)) =
      String.mk ("https://news.naver.com/article/".data ++ (o ++ '/' :: a)) := by
  have hplus : ∀ l : List Char, (∀ c ∈ l, c.isDigit = true) →
      ∀ c ∈ l, c ≠ '+' ∧ c ≠ '%' := by
    intro l hl c hc
    constructor
    · rintro rfl
      exact absurd (hl _ hc) (by decide)
    · rintro rfl
      exact absurd (hl _ hc) (by decide)
  have hre : "https://finance.naver.com/item/news_read.naver?office_id=".data ++
        o ++ "&article_id=".data ++ a =
      "https".data ++ ':' :: '/' :: '/' ::
        ("finance.naver.com".data ++ '/' ::
          ("item/news_read.naver".data ++ '?' ::
            ("office_id=".data ++ (o ++ '&' :: ("article_id=".data ++ a))))) := by
    rw [show ("https://finance.naver.com/item/news_read.naver?office_id=".data : List Char) =
      "https".data ++ ':' :: '/' :: '/' ::
        ("finance.naver.com".data ++ '/' ::
          ("item/news_read.naver".data ++ '?' :: "office_id=".data)) from by decide,
      show ("&article_id=".data : List Char) = '&' :: "article_id=".data from by decide]
    simp [List.append_assoc]
  have htail : ∀ c ∈ "item/news_read.naver".data ++ '?' ::
        ("office_id=".data ++ (o ++ '&' :: ("article_id=".data ++ a))),
      PyUrl.isC0OrSpace c = false ∧ PyUrl.isUnsafeUrlChar c = false := by
    intro c hc
    rcases List.mem_append.1 hc with h | h
    · exact ⟨(by decide : ∀ x ∈ "item/news_read.naver".data, PyUrl.isC0OrSpace x = false) c h,
        (by decide : ∀ x ∈ "item/news_read.naver".data, PyUrl.isUnsafeUrlChar x = false) c h⟩
    · rcases List.mem_cons.1 h with rfl | h2
      · exact ⟨by decide, by decide⟩
      · rcases List.mem_append.1 h2 with h3 | h3
        · exact ⟨(by decide : ∀ x ∈ "office_id=".data, PyUrl.isC0OrSpace x = false) c h3,
            (by decide : ∀ x ∈ "office_id=".data, PyUrl.isUnsafeUrlChar x = false) c h3⟩
        · rcases List.mem_append.1 h3 with h4 | h4
          · exact ⟨(digit_url_facts c (hod c h4)).2.1, (digit_url_facts c (hod c h4)).1⟩
          · rcases List.mem_cons.1 h4 with rfl | h5
            · exact ⟨by decide, by decide⟩
            · rcases List.mem_append.1 h5 with h6 | h6
              · exact ⟨(by decide : ∀ x ∈ "article_id=".data,
                    PyUrl.isC0OrSpace x = false) c h6,
                  (by decide : ∀ x ∈ "article_id=".data,
                    PyUrl.isUnsafeUrlChar x = false) c h6⟩
              · exact ⟨(digit_url_facts c (had c h6)).2.1, (digit_url_facts c (had c h6)).1⟩
  have hfrag : '#' ∉ "item/news_read.naver".data ++ '?' ::
      ("office_id=".data ++ (o ++ '&' :: ("article_id=".data ++ a))) := by
    intro hm
    rcases List.mem_append.1 hm with h | h
    · exact absurd h (by decide)
    · rcases List.mem_cons.1 h with h1 | h2
      · exact absurd h1 (by decide)
      · rcases List.mem_append.1 h2 with h3 | h3
        · exact absurd h3 (by decide)
        · rcases List.mem_append.1 h3 with h4 | h4
          · exact absurd (hod _ h4) (by decide)
          · rcases List.mem_cons.1 h4 with h5 | h5
            · exact absurd h5 (by decide)
            · rcases List.mem_append.1 h5 with h6 | h6
              · exact absurd h6 (by decide)
              · exact absurd (had _ h6) (by decide)
  have hq : PyUrl.splitOnce '?' ('/' :: ("item/news_read.naver".data ++ '?' ::
      ("office_id=".data ++ (o ++ '&' :: ("article_id=".data ++ a))))) =
      some ("/item/news_read.naver".data,
        "office_id=".data ++ (o ++ '&' :: ("article_id=".data ++ a))) := by
    rw [show ('/' :: ("item/news_read.naver".data ++ '?' ::
        ("office_id=".data ++ (o ++ '&' :: ("article_id=".data ++ a))))) =
      "/item/news_read.naver".data ++ '?' ::
        ("office_id=".data ++ (o ++ '&' :: ("article_id=".data ++ a))) from by
      rw [show ("/item/news_read.naver".data : List Char) =
        '/' :: "item/news_read.naver".data from by decide]
      rfl]
    exact PyUrl.splitOnce_append_first '?' _ _ (by decide)
  have hsplit : PyUrl.pyUrlsplit
      ("https://finance.naver.com/item/news_read.naver?office_id=".data ++
        o ++ "&article_id=".data ++ a) =
      .ok ⟨"https".data, "finance.naver.com".data, "/item/news_read.naver".data,
        "office_id=".data ++ (o ++ '&' :: ("article_id=".data ++ a)), []⟩ := by
    rw [hre, pyUrlsplit_https _ _ (by decide) htail hfrag, hq]
  have hqsl : PyUrl.parseQsl ("office_id=".data ++ (o ++ '&' :: ("article_id=".data ++ a))) =
      [("office_id".data, o), ("article_id".data, a)] := by
    unfold PyUrl.parseQsl
    rw [show ("office_id=".data ++ (o ++ '&' :: ("article_id=".data ++ a))) =
      ("office_id=".data ++ o) ++ '&' :: ("article_id=".data ++ a) from by
      simp [List.append_assoc]]
    rw [PyUrl.splitAll_append_first '&' _ _ (by
      intro hm
      rcases List.mem_append.1 hm with h | h
      · exact absurd h (by decide)
      · exact absurd (hod _ h) (by decide)),
      PyUrl.splitAll_of_not_mem '&' _ (by
      intro hm
      rcases List.mem_append.1 hm with h | h
      · exact absurd h (by decide)
      · exact absurd (had _ h) (by decide))]
    simp only [List.filterMap]
    rw [show ("office_id=".data ++ o) = "office_id".data ++ '=' :: o from by
        rw [show ("office_id=".data : List Char) = "office_id".data ++ ['='] from by decide]
        simp,
      show ("article_id=".data ++ a) = "article_id".data ++ '=' :: a from by
        rw [show ("article_id=".data : List Char) = "article_id".data ++ ['='] from by decide]
        simp,
      PyUrl.splitOnce_append_first '=' _ _ (by decide),
      PyUrl.splitOnce_append_first '=' _ _ (by decide)]
    dsimp only
    rw [if_neg (by simpa using ho), if_neg (by simpa using ha),
      PyUrl.unquotePlus_of_plain o (hplus o hod),
      PyUrl.unquotePlus_of_plain a (hplus a had),
      PyUrl.unquotePlus_of_plain "office_id".data (by decide),
      PyUrl.unquotePlus_of_plain "article_id".data (by decide)]
  have hqe : ItemNewsCrawler.queryExtract
      ("office_id=".data ++ (o ++ '&' :: ("article_id=".data ++ a))) =
      (some o, some a) := by
    unfold ItemNewsCrawler.queryExtract
    rw [hqsl]
    dsimp only
    have e1 : (("office_id".data == "office_id".data) : Bool) = true := by decide
    have e2 : (("office_id".data == "article_id".data) : Bool) = false := by decide
    have e3 : (("article_id".data == "article_id".data) : Bool) = true := by decide
    simp [PyUrl.qsFirst, List.find?, e1, e2, e3]
  have hcan2 : ItemNewsCrawler._canonical_article_url
      (some (String.mk o)) (some (String.mk a)) =
      some ("https://news.naver.com/article/" ++ String.mk o ++ "/" ++ String.mk a) := by
    unfold ItemNewsCrawler._canonical_article_url
    dsimp only
    rw [if_pos ⟨ho, ha⟩]
  unfold ItemNewsCrawler.canonical_link ItemNewsCrawler._extract_oid_aid_from_url
    ItemNewsCrawler.extractBody
  rw [show (String.mk ("https://finance.naver.com/item/news_read.naver?office_id=".data ++
      o ++ "&article_id=".data ++ a)).data =
    "https://finance.naver.com/item/news_read.naver?office_id=".data ++
      o ++ "&article_id=".data ++ a from rfl, hsplit]
  dsimp only
  rw [show (PyUrl.splitAll '/' "/item/news_read.naver".data).filter (fun x => !x.isEmpty) =
    ["item".data, "news_read.naver".data] from by decide]
  rw [show ItemNewsCrawler.pathExtract ["item".data, "news_read.naver".data] = none from by decide]
  dsimp only
  rw [hqe]
  dsimp only [Option.map]
  rw [hcan2]
  dsimp only [Option.getD]
  apply String.ext
  simp only [String.data_append]
  simp [List.append_assoc]

end UrlFacts

namespace PyDateTime

/-- A `datetime.date`. -/
structure PyDate where
  year : Nat
  month : Nat
  day : Nat
deriving DecidableEq

/-- Gregorian leap year. -/
def isLeap (y : Nat) : Bool := (y % 4 = 0 && y % 100 ≠ 0) || y % 400 = 0

/-- Days in a month. -/
def daysInMonth (y m : Nat) : Nat :=
  if m = 2 then (if isLeap y then 29 else 28)
  else if m = 4 || m = 6 || m = 9 || m = 11 then 30
  else 31

/-- `datetime.date(y, m, d)`: raises `ValueError` outside the calendar
range (`MINYEAR` 1 to `MAXYEAR` 9999). -/
def dateMk (y m d : Nat) : Except String PyDate :=
  if 1 ≤ y ∧ y ≤ 9999 ∧ 1 ≤ m ∧ m ≤ 12 ∧ 1 ≤ d ∧ d ≤ daysInMonth y m
  then .ok ⟨y, m, d⟩ else .error "ValueError"

/-- Python date comparison, strict: lexicographic on (year, month, day). -/
def dateLt (a b : PyDate) : Bool :=
  a.year < b.year || (a.year = b.year && (a.month < b.month ||
    (a.month = b.month && a.day < b.day)))

/-- Python date comparison, non-strict. -/
def dateLe (a b : PyDate) : Bool := dateLt a b || a = b

/-- A `datetime.datetime`, split as its date and the time past midnight
(seconds, microseconds folded in; only zero/nonzero matters here). -/
structure PyFullDateTime where
  date : PyDate
  daySecs : Nat
deriving DecidableEq

/-- `datetime(a, midnight) < b` for a full datetime `b`. -/
def dtMidnightLt (a : PyDate) (b : PyFullDateTime) : Bool :=
  dateLt a b.date || (a = b.date && 0 < b.daySecs)

end PyDateTime

namespace PyRe

/-- A date separator: the regex class of `.`, `-`, `/`. -/
def isSep (c : Char) : Bool := c = '.' || c = '-' || c = '/'

/-- Match exactly `k` leading digits, returning their value and the rest. -/
def takeDigits (k : Nat) (l : List Char) : Option (Nat × List Char) :=
  go k 0 l
where
  go : Nat → Nat → List Char → Option (Nat × List Char)
    | 0, acc, rest => some (acc, rest)
    | _ + 1, _, [] => none
    | k + 1, acc, c :: rest =>
      if c.isDigit then go k (acc * 10 + (c.toNat - 48)) rest else none

/-- Match `(\d{1,2})` at the head of `r`, greedy with backtracking into the
rest of the pattern, the day having no trailing constraint: regex separator-then-day applied after the month digits. -/
def matchDay (s : List Char) : Option Nat :=
  match takeDigits 2 s with
  | some (d, _) => some d
  | none => (takeDigits 1 s).map Prod.fst

/-- Match day-separator-month, `(\d{1,2})`, a separator, `(\d{1,2})`, at the head of `r`: the month is
greedy (two digits preferred), backtracking to one digit when the
separator or the day cannot follow. -/
def matchMD (r : List Char) : Option (Nat × Nat) :=
  let try2 :=
    match takeDigits 2 r with
    | some (m, s1) =>
      match s1 with
      | c :: s2 => if isSep c then (matchDay s2).map (fun d => (m, d)) else none
      | [] => none
    | none => none
  match try2 with
  | some md => some md
  | none =>
    match takeDigits 1 r with
    | some (m, s1) =>
      match s1 with
      | c :: s2 => if isSep c then (matchDay s2).map (fun d => (m, d)) else none
      | [] => none
    | none => none

/-- Match the full date pattern (`yd` year digits, then separator, month, separator, day) anchored at the head of `l`. -/
def matchYMDAt (yd : Nat) (l : List Char) : Option (Nat × Nat × Nat) :=
  match takeDigits yd l with
  | none => none
  | some (y, r1) =>
    match r1 with
    | c :: r2 =>
      if isSep c then (matchMD r2).map (fun md => (y, md.1, md.2)) else none
    | [] => none

/-- `re.search` for that pattern: the leftmost position with a match. -/
def searchYMD (yd : Nat) (l : List Char) : Option (Nat × Nat × Nat) :=
  match matchYMDAt yd l with
  | some r => some r
  | none =>
    match l with
    | [] => none
    | _ :: rest => searchYMD yd rest

end PyRe

namespace ItemNewsFinance

open PyDateTime PyRe

/-- `_to_date` (`src/finance_test/spiders/naver_item_news.py` lines 41–57):
falsy input gives `None`; a 4-digit-year pattern match builds the date; a
2-digit-year match builds it with year `2000 + YY`; no match gives `None`.
`datetime.date` raises `ValueError` on out-of-range components, which this
function does not catch (`Except.error`). -/
def _to_date (text : Option String) : Except String (Option PyDate) :=
  match text with
  | none => .ok none
  | some t =>
    if t.data.isEmpty then .ok none
    else
      match searchYMD 4 t.data with
      | some (y, m, d) => (dateMk y m d).map some
      | none =>
        match searchYMD 2 t.data with
        | some (y, m, d) => (dateMk (2000 + y) m d).map some
        | none => .ok none

/-- Two decimal digits, zero-padded (`{n:02d}` for `n ≤ 99`). -/
def pad2 (n : Nat) : List Char :=
  [Char.ofNat (48 + n / 10 % 10), Char.ofNat (48 + n % 10)]

/-- `_to_yymmdd` (lines 27–38): the first 4-digit-year date pattern,
reformatted as `YY.MM.DD`. -/
def _to_yymmdd (text : Option String) : Option String :=
  match text with
  | none => none
  | some t =>
    if t.data.isEmpty then none
    else
      (searchYMD 4 t.data).map (fun ymd =>
        String.mk (pad2 (ymd.1 % 100) ++ '.' :: pad2 ymd.2.1 ++ '.' :: pad2 ymd.2.2))

end ItemNewsFinance

namespace PyRe

/-- The `%d` alternatives of `_strptime` in order (`3[01]`, `[12]` digit,
`0[1-9]`, `[1-9]`, space `[1-9]`): each candidate day value with the rest
of the input. -/
def dAlt : List Char → List (Nat × List Char)
  | c1 :: c2 :: rest =>
    (if c1 = '3' ∧ (c2 = '0' ∨ c2 = '1') then [(30 + (c2.toNat - 48), rest)] else []) ++
    (if (c1 = '1' ∨ c1 = '2') ∧ c2.isDigit then
      [((c1.toNat - 48) * 10 + (c2.toNat - 48), rest)] else []) ++
    (if c1 = '0' ∧ ('1' ≤ c2 ∧ c2 ≤ '9') then [(c2.toNat - 48, rest)] else []) ++
    (if '1' ≤ c1 ∧ c1 ≤ '9' then [(c1.toNat - 48, c2 :: rest)] else []) ++
    (if c1 = ' ' ∧ ('1' ≤ c2 ∧ c2 ≤ '9') then [(c2.toNat - 48, rest)] else [])
  | [c1] => if '1' ≤ c1 ∧ c1 ≤ '9' then [(c1.toNat - 48, [])] else []
  | [] => []

/-- The `%m` alternatives of `_strptime` in order (`1[0-2]`, `0[1-9]`,
`[1-9]`). -/
def mAlt : List Char → List (Nat × List Char)
  | c1 :: c2 :: rest =>
    (if c1 = '1' ∧ ('0' ≤ c2 ∧ c2 ≤ '2') then [(10 + (c2.toNat - 48), rest)] else []) ++
    (if c1 = '0' ∧ ('1' ≤ c2 ∧ c2 ≤ '9') then [(c2.toNat - 48, rest)] else []) ++
    (if '1' ≤ c1 ∧ c1 ≤ '9' then [(c1.toNat - 48, c2 :: rest)] else [])
  | [c1] => if '1' ≤ c1 ∧ c1 ≤ '9' then [(c1.toNat - 48, [])] else []
  | [] => []

/-- `datetime.strptime(s, "%y.%m.%d")`: anchored match of exactly two year
digits (`00`–`68` mean 2000s, `69`–`99` the 1900s), a literal dot, the `%m`
alternation, a literal dot, the `%d` alternation, with the whole string
consumed and regex backtracking over the ordered alternatives; the matched
values then go through the date constructor (so Feb 30 still raises
`ValueError`). -/
def strptime_yMd (input : List Char) : Except String PyDateTime.PyDate :=
  match input with
  | y1 :: y2 :: '.' :: rest =>
    if y1.isDigit ∧ y2.isDigit then
      let yy := (y1.toNat - 48) * 10 + (y2.toNat - 48)
      let year := if yy ≤ 68 then 2000 + yy else 1900 + yy
      match (mAlt rest).findSome? (fun mc =>
        match mc.2 with
        | '.' :: r2 =>
          ((dAlt r2).find? (fun p => p.2.isEmpty)).map (fun p => (mc.1, p.1))
        | _ => none) with
      | some (m, d) => PyDateTime.dateMk year m d
      | none => .error "ValueError"
    else .error "ValueError"
  | _ => .error "ValueError"

end PyRe

namespace ReportSpider

open PyDateTime

/-- One row of the research list (`tr` with a `td.date` cell): the date
cell's text and the row's report link; the other cells only fill the
emitted item's fields and play no part in control flow. -/
structure ReportRow where
  dateStr : Option String
  link : String
deriving DecidableEq

/-- Lines 104–108 of
`src/crawler/finance_test/spiders/naver_report_spider.py`:
`datetime.strptime(date_str.strip(), "%y.%m.%d")` inside
`try/except: continue` — a `None` cell raises `AttributeError` at
`.strip()`, a malformed cell `ValueError`, both caught by the `continue`. -/
def parse_row_date (r : ReportRow) : Except String PyDate :=
  match r.dateStr with
  | none => .error "AttributeError"
  | some str => PyRe.strptime_yMd (PyStr.strip str.data)

/-- The row loop of `parse_report_list` (lines 103–152): a row whose date
fails to parse is skipped (`continue`); the first row whose date is
strictly before the cutoff sets `stop_crawling` and `break`s, so neither
it nor any later row of the page is scheduled; every other row yields one
detail request.  Returns (rows scheduled, `stop_crawling`). -/
def reportRowLoop (cutoff : PyFullDateTime) : List ReportRow → List ReportRow × Bool
  | [] => ([], false)
  | r :: rs =>
    match parse_row_date r with
    | .error _ => reportRowLoop cutoff rs
    | .ok d =>
      if dtMidnightLt d cutoff then ([], true)
      else
        let (sched, stop) := reportRowLoop cutoff rs
        (r :: sched, stop)

/-- `parse_report_list` (lines 98–172), reduced to its control flow: the
scheduled detail fetches and whether a next-page request goes out
(`if not stop_crawling:` and a next-page link must exist). -/
def parse_report_list (cutoff : PyFullDateTime) (rows : List ReportRow)
    (hasNextLink : Bool) : List ReportRow × Bool :=
  let (sched, stop) := reportRowLoop cutoff rows
  (sched, !stop && hasNextLink)

end ReportSpider

namespace Pipelines

/-- An item as `DedupePipeline` sees it: `item.get('original_id')` (`None`
when the field is absent or unset) plus an opaque payload standing for all
the other fields, so that otherwise distinct items are distinct values. -/
structure PipeItem where
  original_id : Option String
  payload : Nat
deriving DecidableEq

/-- `DedupePipeline.process_item` (`src/crawler/finance_test/pipelines.py`
lines 20–25) against an explicit seen-set: a key already seen raises
`DropItem` (`Except.error`); otherwise the key is added and the item
returned. -/
def process_item (seen : List (Option String)) (item : PipeItem) :
    Except String (PipeItem × List (Option String)) :=
  if item.original_id ∈ seen then .error "DropItem"
  else .ok (item, item.original_id :: seen)

/-- One run of the pipeline over the items a spider yields, from the fresh
empty `seen_ids` of `DedupePipeline.__init__` (a new pipeline object per
run, nothing persisted): the emitted items in order — the framework
catches `DropItem` and goes on with the next item. -/
def runPipeline (items : List PipeItem) : List PipeItem :=
  go [] items
where
  go (seen : List (Option String)) : List PipeItem → List PipeItem
    | [] => []
    | i :: is =>
      match process_item seen i with
      | .error _ => go seen is
      | .ok (out, seen2) => out :: go seen2 is

end Pipelines

namespace ItemNewsFinance

open PyDateTime

/-- Python truthiness of an optional string. -/
def truthyOpt (s : Option String) : Bool :=
  match s with
  | none => false
  | some t => !t.data.isEmpty

/-- `_extract_oid_aid_from_href` (`src/finance_test/spiders/naver_item_news.py`
lines 152–168): query parameters only — `office_id`/`article_id` first,
and when not both truthy, `oid`/`aid` with the previous values as
defaults; exceptions become `(None, None)`. -/
def _extract_oid_aid_from_href (href : String) : Option String × Option String :=
  match PyUrl.pyUrlsplit href.data with
  | .error _ => (none, none)
  | .ok p =>
    let qs := PyUrl.parseQsl p.query
    let oid0 := (PyUrl.qsFirst qs "office_id".data).map String.mk
    let aid0 := (PyUrl.qsFirst qs "article_id".data).map String.mk
    if !(truthyOpt oid0 && truthyOpt aid0) then
      ((PyUrl.qsFirst qs "oid".data).map String.mk <|> oid0,
       (PyUrl.qsFirst qs "aid".data).map String.mk <|> aid0)
    else (oid0, aid0)

/-- `_canonical_article_url` (lines 171–174): the fixed template when both
ids are truthy, else the given fallback. -/
def _canonical_article_url (oid aid : Option String) (fallback : Option String) :
    Option String :=
  match oid, aid with
  | some o, some a =>
    if !o.data.isEmpty && !a.data.isEmpty then
      some ("https://news.naver.com/article/" ++ o ++ "/" ++ a)
    else fallback
  | _, _ => fallback

/-- One row of the finance news list (`table.type5 tr` with a `news_read`
anchor): the anchor's absolute URL (selector fallbacks and `urljoin`
happen at the HTML boundary) and the raw date-cell text. -/
structure ListRow where
  href : Option String
  rawDate : Option String
deriving DecidableEq

/-- The row loop and pagination decision of `parse_finance_list`
(lines 217–279).  Per row: skip without an anchor (or an empty href); the
date cell goes through `_clean` and `_to_date` (a `ValueError` there
aborts the whole callback — `Except.error`); a row dated on/after the
cutoff sets `page_has_recent` and goes on to oid/aid extraction, URL
canonicalisation and the `articles_seen` de-duplication, scheduling a
detail request with the `_to_yymmdd` hint; any other row is skipped.
Empty `rows` returns immediately.  Result: (scheduled (url, hint) pairs in
page order, the updated `articles_seen`, and whether a next-page request
is issued — exactly `page_has_recent`). -/
def parse_finance_list (cutoff : PyDate) (rows : List ListRow) (seen : List String) :
    Except String (List (String × Option String) × List String × Bool) :=
  if rows.isEmpty then .ok ([], seen, false)
  else go seen false rows
where
  go (seen : List String) (hasRecent : Bool) :
      List ListRow → Except String (List (String × Option String) × List String × Bool)
    | [] => .ok ([], seen, hasRecent)
    | r :: rs =>
      match r.href with
      | none => go seen hasRecent rs
      | some href =>
        if href.data.isEmpty then go seen hasRecent rs
        else
          let dateText := _clean r.rawDate
          match _to_date dateText with
          | .error e => .error e
          | .ok (some d) =>
            if dateLe cutoff d then
              let p := _extract_oid_aid_from_href href
              match _canonical_article_url p.1 p.2 (some href) with
              | none => go seen true rs
              | some article_url =>
                if article_url.data.isEmpty || article_url ∈ seen then go seen true rs
                else
                  match go (article_url :: seen) true rs with
                  | .error e => .error e
                  | .ok (sch, seen2, flag) =>
                    .ok ((article_url, _to_yymmdd dateText) :: sch, seen2, flag)
            else go seen hasRecent rs
          | .ok none => go seen hasRecent rs

end ItemNewsFinance

namespace NaverSpider

open PyDateTime

/-- Whether `needle` occurs as a contiguous segment of the list (Python's
`in` on strings). -/
def containsSub (needle : List Char) : List Char → Bool
  | [] => needle.isEmpty
  | c :: rest => needle.isPrefixOf (c :: rest) || containsSub needle rest

/-- `_parse_to_date` (`src/finance_test/spiders/naver_spider.py` lines
95–106): falsy input gives `None`; whitespace is normalised by
`" ".join(s.split())`; only the 4-digit-year pattern is tried (no 2-digit
fallback in this spider); `datetime.date` may raise. -/
def _parse_to_date (s : Option String) : Except String (Option PyDate) :=
  match s with
  | none => .ok none
  | some t =>
    if t.data.isEmpty then .ok none
    else
      let s2 := List.intercalate [' '] (PyStr.wordsBy t.data)
      match PyRe.searchYMD 4 s2 with
      | some (y, m, d) => (dateMk y m d).map some
      | none => .ok none

/-- `_to_yymmdd` of `naver_spider` (lines 108–113): format the parsed date
as `YY.MM.DD`, `None` when there is no date. -/
def _to_yymmdd (s : Option String) : Except String (Option String) :=
  match _parse_to_date s with
  | .error e => .error e
  | .ok none => .ok none
  | .ok (some dt) =>
    .ok (some (String.mk (ItemNewsFinance.pad2 (dt.year % 100) ++
      '.' :: ItemNewsFinance.pad2 dt.month ++ '.' :: ItemNewsFinance.pad2 dt.day)))

/-- One row of the board list: the title anchor's href (`None` when the
row has no anchor; the attrib default makes a missing attribute the empty
string, which the substring check rejects the same way) and the raw
uploaded-date text of the first cell. -/
structure BoardRow where
  href : Option String
  uploadedRaw : Option String
deriving DecidableEq

/-- `nid` extraction from a row href (line 189–190):
`parse_qs(urlparse(urljoin(...)).query).get("nid")`, first value. -/
def nidOf (href : String) : Except String (Option String) :=
  match PyUrl.pyUrlsplit href.data with
  | .error e => .error e
  | .ok p => .ok ((PyUrl.qsFirst (PyUrl.parseQsl p.query) "nid".data).map String.mk)

/-- The detail URL template `DETAIL_URL_TPL` (line 11). -/
def detailUrl (code nid page : String) : String :=
  "https://finance.naver.com/item/board_read.naver?code=" ++ code ++
    "&nid=" ++ nid ++ "&page=" ++ page

/-- The row loop of `parse_list` (lines 164–205) and its two flags.  Per
row: skip rows without a `board_read.naver` link; parse the date
(`_parse_to_date`, exceptions propagate); `pass_cutoff` is true when the
date is `None` (permissive) or on/after the cutoff — such a row sets
`any_newer_or_equal`, and clears `all_old_or_undated` only when it has a
date; a failing row is skipped.  A passing row is scheduled unless its
`nid` is missing or already seen.  Result: (scheduled (detail_url,
uploaded_at) pairs, updated seen `nid`s, `any_newer_or_equal`,
`all_old_or_undated`). -/
def parse_list (cutoff : PyDate) (code page : String) (rows : List BoardRow)
    (seen : List String) :
    Except String (List (String × Option String) × List String × Bool × Bool) :=
  go seen false true rows
where
  go (seen : List String) (anyNewer allOld : Bool) :
      List BoardRow →
      Except String (List (String × Option String) × List String × Bool × Bool)
    | [] => .ok ([], seen, anyNewer, allOld)
    | r :: rs =>
      match r.href with
      | none => go seen anyNewer allOld rs
      | some href =>
        if !containsSub "board_read.naver".data href.data then
          go seen anyNewer allOld rs
        else
          match _parse_to_date r.uploadedRaw with
          | .error e => .error e
          | .ok dt =>
            let passCutoff :=
              match dt with
              | none => true
              | some d => dateLe cutoff d
            if passCutoff then
              let allOld2 := if dt.isSome then false else allOld
              match nidOf href with
              | .error e => .error e
              | .ok nid =>
                match nid with
                | none => go seen true allOld2 rs
                | some n =>
                  if n.data.isEmpty || n ∈ seen then go seen true allOld2 rs
                  else
                    match _to_yymmdd r.uploadedRaw with
                    | .error e => .error e
                    | .ok up =>
                      match go (n :: seen) true allOld2 rs with
                      | .error e => .error e
                      | .ok (sch, seen2, a2, o2) =>
                        .ok ((detailUrl code n page, up) :: sch, seen2, a2, o2)
            else go seen anyNewer allOld rs

/-- The pagination decision of `parse_list` (lines 207–224) when no
explicit `end_page` bound is set: stop for this code iff the page showed
no row on/after the cutoff and every dated row was before it. -/
def list_next_page (anyNewer allOld : Bool) : Bool :=
  !(!anyNewer && allOld)

end NaverSpider


namespace PyStrFacts

/-- A nonempty all-non-whitespace string is a single token. -/
theorem wordsBy_all_nonspace (c : Char) (cs : List Char)
    (h : ∀ x ∈ c :: cs, PyStr.isSpace x = false) :
    PyStr.wordsBy (c :: cs) = [c :: cs] := by
  rw [PyStr.wordsBy_cons_nonspace c cs (h c (List.mem_cons_self ..))]
  have ht : cs.takeWhile (fun d => !PyStr.isSpace d) = cs :=
    List.takeWhile_eq_self_iff.2 (fun d hd => by
      simp [h d (List.mem_cons_of_mem _ hd)])
  have hd : cs.dropWhile (fun d => !PyStr.isSpace d) = [] :=
    List.dropWhile_eq_nil_iff.2 (fun d hd => by
      simp [h d (List.mem_cons_of_mem _ hd)])
  rw [ht, hd, PyStr.wordsBy_nil]

/-- A token followed by a whitespace character peels off as one word. -/
theorem wordsBy_word_sep (w : List Char) (c : Char) (rest : List Char)
    (hw : ∀ x ∈ w, PyStr.isSpace x = false) (hne : w ≠ [])
    (hc : PyStr.isSpace c = true) :
    PyStr.wordsBy (w ++ c :: rest) = w :: PyStr.wordsBy rest := by
  rcases w with _ | ⟨x, w'⟩
  · exact absurd rfl hne
  · rw [List.cons_append,
      PyStr.wordsBy_cons_nonspace x _ (hw x (List.mem_cons_self ..)),
      UrlFacts.takeWhile_append_head_neg w' c rest
        (fun d hd => by simp [hw d (List.mem_cons_of_mem _ hd)]) (by simp [hc]),
      UrlFacts.dropWhile_append_head_neg w' c rest
        (fun d hd => by simp [hw d (List.mem_cons_of_mem _ hd)]) (by simp [hc]),
      PyStr.wordsBy_cons_space c rest hc]

/-- `_clean` is the identity on a nonempty string with no whitespace at all. -/
theorem clean_plain (s : String) (hne : s.data ≠ [])
    (h : ∀ c ∈ s.data, PyStr.isSpace c = false) :
    _clean (some s) = some s := by
  rw [clean_characterization]
  rcases hd : s.data with _ | ⟨c, cs⟩
  · exact absurd hd hne
  · rw [hd] at h
    rw [wordsBy_all_nonspace c cs h, if_neg (by simp),
      PyStr.intercalate_sp_singleton, ← hd]

end PyStrFacts

/-- C9: whitespace normalisation by `_clean`
(`src/crawler/finance_test/spiders/naver_news_spider.py` lines 11–15).
`None` and the empty string give `None`; a string that is nothing but
whitespace (tabs, newlines, no-break spaces, repeated spaces) gives `None`;
and in general the result is exactly the whitespace-separated tokens of the
input joined by single spaces — so every maximal whitespace run collapses
to one space and no leading or trailing whitespace survives — `None`
exactly when there is no token.  A concrete mixed example is included. -/
theorem claim_C9 :
    _clean none = none ∧
    _clean (some "") = none ∧
    (∀ s : String, (∀ c ∈ s.data, PyStr.isSpace c = true) → _clean (some s) = none) ∧
    (∀ s : String, _clean (some s) =
      (if PyStr.wordsBy s.data = [] then none
       else some (String.mk (List.intercalate [' '] (PyStr.wordsBy s.data))))) ∧
    _clean (some " \t \n ") = none ∧
    _clean (some "  a\tb \n\nc  d  ") = some "a b c d" := by
  refine ⟨rfl, rfl, ?_, clean_characterization, ?_, ?_⟩
  · intro s hs
    rw [clean_characterization, if_pos ((PyStr.wordsBy_eq_nil_iff s.data).2 hs)]
  · rw [clean_characterization]
    rw [show (" \t \n " : String).data =
      ' ' :: '\t' :: ' ' :: '\n' :: ' ' :: [] from rfl]
    rw [if_pos ((PyStr.wordsBy_eq_nil_iff _).2 (by decide))]
  · rw [clean_characterization]
    have hw : PyStr.wordsBy ("  a\tb \n\nc  d  " : String).data =
        [['a'], ['b'], ['c'], ['d']] := by
      rw [show ("  a\tb \n\nc  d  " : String).data =
        ' ' :: ' ' :: (['a'] ++ '\t' :: (['b'] ++ ' ' :: '\n' :: '\n' ::
          (['c'] ++ ' ' :: ' ' :: (['d'] ++ ' ' :: ' ' :: [])))) from by decide]
      rw [PyStr.wordsBy_cons_space _ _ (by decide),
        PyStr.wordsBy_cons_space _ _ (by decide),
        PyStrFacts.wordsBy_word_sep ['a'] '\t' _ (by decide) (by decide) (by decide),
        PyStrFacts.wordsBy_word_sep ['b'] ' ' _ (by decide) (by decide) (by decide),
        PyStr.wordsBy_cons_space _ _ (by decide),
        PyStr.wordsBy_cons_space _ _ (by decide),
        PyStrFacts.wordsBy_word_sep ['c'] ' ' _ (by decide) (by decide) (by decide),
        PyStr.wordsBy_cons_space _ _ (by decide),
        PyStrFacts.wordsBy_word_sep ['d'] ' ' _ (by decide) (by decide) (by decide),
        PyStr.wordsBy_cons_space _ _ (by decide),
        PyStr.wordsBy_nil]
    rw [hw, if_neg (by simp)]
    rfl

/-- C3: the date parser `_to_date`
(`src/finance_test/spiders/naver_item_news.py` lines 41–57) sends
`2025.10.24`, `2025-10-24` and `2025/10/24 09:10` to the same calendar date
2025-10-24; sends `25.10.24` to 2025-10-24 by the two-digit-year
convention (year `2000 + YY`); gives no date for `None`, the empty string,
and any string in which the date regex finds no match (with neither a
4-digit-year nor a 2-digit-year pattern occurrence). -/
theorem claim_C3 :
    ItemNewsFinance._to_date (some "2025.10.24") = .ok (some ⟨2025, 10, 24⟩) ∧
    ItemNewsFinance._to_date (some "2025-10-24") = .ok (some ⟨2025, 10, 24⟩) ∧
    ItemNewsFinance._to_date (some "2025/10/24 09:10") = .ok (some ⟨2025, 10, 24⟩) ∧
    ItemNewsFinance._to_date (some "25.10.24") = .ok (some ⟨2025, 10, 24⟩) ∧
    ItemNewsFinance._to_date none = .ok none ∧
    ItemNewsFinance._to_date (some "") = .ok none ∧
    ItemNewsFinance._to_date (some "no date here") = .ok none ∧
    (∀ s : String, PyRe.searchYMD 4 s.data = none → PyRe.searchYMD 2 s.data = none →
      ItemNewsFinance._to_date (some s) = .ok none) := by
  refine ⟨rfl, rfl, rfl, rfl, rfl, rfl, rfl, ?_⟩
  intro s h4 h2
  unfold ItemNewsFinance._to_date
  dsimp only
  by_cases he : s.data.isEmpty
  · rw [if_pos he]
  · rw [if_neg he, h4, h2]

/-- C8: totality of `_extract_oid_aid_from_url`
(`src/crawler/finance_test/spiders/naver_item_news.py` lines 63–82).  The
body of the `try` block is `extractBody`; whenever it raises
(`Except.error`), the `except Exception` handler turns the outcome into
`(None, None)`, and whenever it returns a pair the pair is passed through
— so the helper always returns a pair of optional strings and never
propagates an exception.  The raising case is reachable: `urlsplit` raises
`ValueError` on a mismatched bracket, as for `http://[abc`. -/
theorem claim_C8 :
    (∀ (url : String) (e : String), ItemNewsCrawler.extractBody url.data = .error e →
      ItemNewsCrawler._extract_oid_aid_from_url url = (none, none)) ∧
    (∀ (url : String) (o a : Option (List Char)),
      ItemNewsCrawler.extractBody url.data = .ok (o, a) →
      ItemNewsCrawler._extract_oid_aid_from_url url = (o.map String.mk, a.map String.mk)) ∧
    ItemNewsCrawler.extractBody ("http://[abc" : String).data = .error "Invalid IPv6 URL" ∧
    ItemNewsCrawler._extract_oid_aid_from_url "http://[abc" = (none, none) := by
  refine ⟨?_, ?_, rfl, rfl⟩
  · intro url e h
    unfold ItemNewsCrawler._extract_oid_aid_from_url
    rw [h]
  · intro url o a h
    unfold ItemNewsCrawler._extract_oid_aid_from_url
    rw [h]

namespace Pipelines

/-- Per-key count of the emitted items against an explicit seen-set: a key
already seen is never emitted again, a fresh key is emitted at most once. -/
theorem go_countP (k : Option String) (items : List PipeItem) :
    ∀ seen : List (Option String),
    (runPipeline.go seen items).countP (fun i => i.original_id == k) =
      if k ∈ seen then 0 else min (items.countP (fun i => i.original_id == k)) 1 := by
  induction items with
  | nil =>
    intro seen
    simp [runPipeline.go]
  | cons i is ih =>
    intro seen
    by_cases hmem : i.original_id ∈ seen
    · have hgo : runPipeline.go seen (i :: is) = runPipeline.go seen is := by
        simp [runPipeline.go, process_item, hmem]
      rw [hgo, ih seen]
      by_cases hk : k ∈ seen
      · simp [hk]
      · have hik : (i.original_id == k) = false := by
          simp only [beq_eq_false_iff_ne, ne_eq]
          rintro rfl
          exact hk hmem
        simp [hk, List.countP_cons, hik]
    · have hgo : runPipeline.go seen (i :: is) =
          i :: runPipeline.go (i.original_id :: seen) is := by
        simp [runPipeline.go, process_item, hmem]
      rw [hgo, List.countP_cons, ih (i.original_id :: seen), List.countP_cons]
      by_cases hik : i.original_id = k
      · subst hik
        have hbeq : (i.original_id == i.original_id) = true := by simp
        rw [hbeq, if_neg hmem, if_pos (List.mem_cons_self ..)]
        simp only [if_true, Nat.zero_add]
        omega
      · have hik2 : (i.original_id == k) = false := by
          simp only [beq_eq_false_iff_ne, ne_eq]
          exact hik
        have hm2 : (k ∈ i.original_id :: seen) ↔ k ∈ seen := by
          simp only [List.mem_cons, or_iff_right_iff_imp]
          rintro rfl
          exact absurd rfl (Ne.symm hik)
        rw [hik2]
        by_cases hk : k ∈ seen
        · simp [hk, hm2]
        · simp [hk, hm2]

/-- Emitted items whose keys all sit in the seen-set already: none survive. -/
theorem go_all_seen (items : List PipeItem) :
    ∀ seen : List (Option String), (∀ i ∈ items, i.original_id ∈ seen) →
    runPipeline.go seen items = [] := by
  induction items with
  | nil => intro seen _; rfl
  | cons i is ih =>
    intro seen h
    have hgo : runPipeline.go seen (i :: is) = runPipeline.go seen is := by
      simp [runPipeline.go, process_item, h i (List.mem_cons_self ..)]
    rw [hgo, ih seen (fun x hx => h x (List.mem_cons_of_mem _ hx))]

end Pipelines

/-- C6: de-duplication by `DedupePipeline`
(`src/crawler/finance_test/pipelines.py` lines 16–25).  `process_item`
raises `DropItem` exactly when the item's `original_id` key was already
recorded in the seen-set, and otherwise emits the item unchanged while
recording its key; a run starts from the empty seen-set by definition of
`runPipeline` (one fresh pipeline object per run); two items with the same
key in one run yield exactly the first; and per key the emitted count of a
whole run is the input count capped at one. -/
theorem claim_C6 :
    (∀ (seen : List (Option String)) (item : Pipelines.PipeItem),
      Pipelines.process_item seen item = .error "DropItem" ↔ item.original_id ∈ seen) ∧
    (∀ (seen : List (Option String)) (item : Pipelines.PipeItem),
      item.original_id ∉ seen →
      Pipelines.process_item seen item = .ok (item, item.original_id :: seen)) ∧
    (∀ x y : Pipelines.PipeItem, x.original_id = y.original_id →
      Pipelines.runPipeline [x, y] = [x]) ∧
    (∀ (items : List Pipelines.PipeItem) (k : Option String),
      (Pipelines.runPipeline items).countP (fun i => i.original_id == k) =
        min (items.countP (fun i => i.original_id == k)) 1) ∧
    (∀ items : List Pipelines.PipeItem,
      Pipelines.runPipeline items = Pipelines.runPipeline.go [] items) := by
  refine ⟨?_, ?_, ?_, ?_, fun _ => rfl⟩
  · intro seen item
    constructor
    · intro h
      by_contra hmem
      rw [Pipelines.process_item, if_neg hmem] at h
      exact absurd h (by simp)
    · intro hmem
      rw [Pipelines.process_item, if_pos hmem]
  · intro seen item hmem
    rw [Pipelines.process_item, if_neg hmem]
  · intro x y h
    have h1 : Pipelines.runPipeline.go [] [x, y] =
        x :: Pipelines.runPipeline.go [x.original_id] [y] := by
      simp [Pipelines.runPipeline.go, Pipelines.process_item]
    have h2 : Pipelines.runPipeline.go [x.original_id] [y] = [] := by
      simp [Pipelines.runPipeline.go, Pipelines.process_item, ← h]
    show Pipelines.runPipeline.go [] [x, y] = [x]
    rw [h1, h2]
  · intro items k
    show (Pipelines.runPipeline.go [] items).countP _ = _
    rw [Pipelines.go_countP k items []]
    simp

/-- C10: every item without an `original_id` (the field absent or `None`)
shares the single de-duplication key `None`
(`src/crawler/finance_test/pipelines.py` lines 16–25): once `None` is in
the seen-set, any further keyless item is dropped, however different its
other fields; so of a run consisting only of keyless items exactly the
first is emitted, and in particular two entirely distinct keyless items
yield only the first. -/
theorem claim_C10 :
    (∀ (seen : List (Option String)) (item : Pipelines.PipeItem),
      item.original_id = none → none ∈ seen →
      Pipelines.process_item seen item = .error "DropItem") ∧
    (∀ x y : Pipelines.PipeItem, x.original_id = none → y.original_id = none →
      Pipelines.runPipeline [x, y] = [x]) ∧
    (∀ items : List Pipelines.PipeItem, (∀ i ∈ items, i.original_id = none) →
      Pipelines.runPipeline items = items.take 1) := by
  refine ⟨?_, ?_, ?_⟩
  · intro seen item hid hmem
    rw [Pipelines.process_item, if_pos (hid ▸ hmem)]
  · intro x y hx hy
    have h1 : Pipelines.runPipeline.go [] [x, y] =
        x :: Pipelines.runPipeline.go [x.original_id] [y] := by
      simp [Pipelines.runPipeline.go, Pipelines.process_item]
    have h2 : Pipelines.runPipeline.go [x.original_id] [y] = [] := by
      simp [Pipelines.runPipeline.go, Pipelines.process_item, hx, hy]
    show Pipelines.runPipeline.go [] [x, y] = [x]
    rw [h1, h2]
  · intro items h
    rcases items with _ | ⟨i, is⟩
    · rfl
    · have h1 : Pipelines.runPipeline.go [] (i :: is) =
          i :: Pipelines.runPipeline.go [i.original_id] is := by
        simp [Pipelines.runPipeline.go, Pipelines.process_item]
      have h2 : Pipelines.runPipeline.go [i.original_id] is = [] := by
        apply Pipelines.go_all_seen
        intro x hx
        rw [h x (List.mem_cons_of_mem _ hx), h i (List.mem_cons_self ..)]
        exact List.mem_cons_self ..
      show Pipelines.runPipeline.go [] (i :: is) = (i :: is).take 1
      rw [h1, h2, List.take_succ_cons, List.take_zero]

namespace ReportSpider

open PyDateTime

/-- A page of the research list with no stale row: every row that parses
is scheduled (unparseable rows are skipped) and the loop never sets the
stop flag. -/
theorem reportRowLoop_fresh (cutoff : PyFullDateTime) (rows : List ReportRow)
    (h : ∀ r ∈ rows, ∀ d, parse_row_date r = .ok d → dtMidnightLt d cutoff = false) :
    reportRowLoop cutoff rows =
      (rows.filter (fun r => (parse_row_date r).isOk), false) := by
  induction rows with
  | nil => rfl
  | cons r rs ih =>
    rcases hp : parse_row_date r with e | d
    · rw [show reportRowLoop cutoff (r :: rs) = reportRowLoop cutoff rs from by
        simp [reportRowLoop, hp]]
      rw [List.filter_cons_of_neg (by simp [hp, Except.isOk, Except.toBool])]
      exact ih (fun x hx => h x (List.mem_cons_of_mem _ hx))
    · have hfresh : dtMidnightLt d cutoff = false := h r (List.mem_cons_self ..) d hp
      rw [show reportRowLoop cutoff (r :: rs) =
          (r :: (reportRowLoop cutoff rs).1, (reportRowLoop cutoff rs).2) from by
        simp [reportRowLoop, hp, hfresh]]
      rw [List.filter_cons_of_pos (by simp [hp, Except.isOk, Except.toBool]),
        ih (fun x hx => h x (List.mem_cons_of_mem _ hx))]

/-- A page whose first stale row follows a stale-free prefix: only the
parsing rows of the prefix are scheduled and the stop flag is set. -/
theorem reportRowLoop_stale (cutoff : PyFullDateTime) (pre : List ReportRow)
    (row : ReportRow) (post : List ReportRow)
    (hpre : ∀ r ∈ pre, ∀ d, parse_row_date r = .ok d → dtMidnightLt d cutoff = false)
    (d : PyDate) (hd : parse_row_date row = .ok d)
    (hstale : dtMidnightLt d cutoff = true) :
    reportRowLoop cutoff (pre ++ row :: post) =
      (pre.filter (fun r => (parse_row_date r).isOk), true) := by
  induction pre with
  | nil =>
    simp only [List.nil_append, List.filter_nil]
    simp [reportRowLoop, hd, hstale]
  | cons p pre' ih =>
    rcases hp : parse_row_date p with e | dp
    · rw [List.cons_append, show reportRowLoop cutoff (p :: (pre' ++ row :: post)) =
          reportRowLoop cutoff (pre' ++ row :: post) from by simp [reportRowLoop, hp]]
      rw [List.filter_cons_of_neg (by simp [hp, Except.isOk, Except.toBool])]
      exact ih (fun x hx => hpre x (List.mem_cons_of_mem _ hx))
    · have hfresh : dtMidnightLt dp cutoff = false := hpre p (List.mem_cons_self ..) dp hp
      rw [List.cons_append, show reportRowLoop cutoff (p :: (pre' ++ row :: post)) =
          (p :: (reportRowLoop cutoff (pre' ++ row :: post)).1,
            (reportRowLoop cutoff (pre' ++ row :: post)).2) from by
        simp [reportRowLoop, hp, hfresh]]
      rw [List.filter_cons_of_pos (by simp [hp, Except.isOk, Except.toBool]),
        ih (fun x hx => hpre x (List.mem_cons_of_mem _ hx))]

end ReportSpider

/-- C5: stop-at-first-stale termination of the report spider
(`src/crawler/finance_test/spiders/naver_report_spider.py` lines 98–172).
As soon as a row's date parses strictly before the cutoff (now minus three
days), the page loop breaks: neither that row nor any later row is
scheduled, and no next-page request goes out even when a next-page link
exists.  Without a stale row, every row that parses is scheduled
(unparseable rows are skipped by the `continue`) and the next-page request
goes out exactly when a next-page link exists.  A concrete page — fresh
row, unparseable row, stale row, then a fresh row the break never
reaches — is included. -/
theorem claim_C5 :
    (∀ (cutoff : PyDateTime.PyFullDateTime) (pre : List ReportSpider.ReportRow)
       (row : ReportSpider.ReportRow) (post : List ReportSpider.ReportRow)
       (hasNextLink : Bool) (d : PyDateTime.PyDate),
      (∀ r ∈ pre, ∀ d', ReportSpider.parse_row_date r = .ok d' →
        PyDateTime.dtMidnightLt d' cutoff = false) →
      ReportSpider.parse_row_date row = .ok d →
      PyDateTime.dtMidnightLt d cutoff = true →
      ReportSpider.parse_report_list cutoff (pre ++ row :: post) hasNextLink =
        (pre.filter (fun r => (ReportSpider.parse_row_date r).isOk), false)) ∧
    (∀ (cutoff : PyDateTime.PyFullDateTime) (rows : List ReportSpider.ReportRow)
       (hasNextLink : Bool),
      (∀ r ∈ rows, ∀ d', ReportSpider.parse_row_date r = .ok d' →
        PyDateTime.dtMidnightLt d' cutoff = false) →
      ReportSpider.parse_report_list cutoff rows hasNextLink =
        (rows.filter (fun r => (ReportSpider.parse_row_date r).isOk), hasNextLink)) ∧
    ReportSpider.parse_report_list ⟨⟨2025, 10, 21⟩, 43200⟩
      [⟨some "25.10.24", "L1"⟩, ⟨some "bogus", "L2"⟩,
       ⟨some "25.10.10", "L3"⟩, ⟨some "25.10.23", "L4"⟩] true =
      ([⟨some "25.10.24", "L1"⟩], false) ∧
    ReportSpider.parse_report_list ⟨⟨2025, 10, 21⟩, 43200⟩
      [⟨some "25.10.24", "L1"⟩, ⟨some "bogus", "L2"⟩] true =
      ([⟨some "25.10.24", "L1"⟩], true) := by
  refine ⟨?_, ?_, rfl, rfl⟩
  · intro cutoff pre row post hasNextLink d hpre hd hstale
    unfold ReportSpider.parse_report_list
    rw [ReportSpider.reportRowLoop_stale cutoff pre row post hpre d hd hstale]
    simp
  · intro cutoff rows hasNextLink h
    unfold ReportSpider.parse_report_list
    rw [ReportSpider.reportRowLoop_fresh cutoff rows h]
    simp

/-- C7: the permissive unparseable-date policy of the board spider
(`src/finance_test/spiders/naver_spider.py` lines 164–224).  A row with a
`board_read.naver` link whose raw date fails to parse (`_parse_to_date`
yields no date) still passes the cutoff check: it is scheduled exactly
like a recent row (and counts towards `any_newer_or_equal` without
clearing `all_old_or_undated`), and the scheduled record's uploaded date
is `None` (`_to_yymmdd` of an unparsed string is `None`).  A concrete
one-row page with the unparseable date `nodate` is included, together
with the resulting next-page decision. -/
theorem claim_C7 :
    (∀ (cutoff : PyDateTime.PyDate) (code page : String) (seen : List String)
       (anyNewer allOld : Bool) (r : NaverSpider.BoardRow)
       (rs : List NaverSpider.BoardRow) (href n : String),
      r.href = some href →
      NaverSpider.containsSub "board_read.naver".data href.data = true →
      NaverSpider._parse_to_date r.uploadedRaw = .ok none →
      NaverSpider.nidOf href = .ok (some n) →
      n.data.isEmpty = false → n ∉ seen →
      NaverSpider.parse_list.go cutoff code page seen anyNewer allOld (r :: rs) =
        (match NaverSpider.parse_list.go cutoff code page (n :: seen) true allOld rs with
         | .error e => .error e
         | .ok (sch, seen2, a2, o2) =>
           .ok ((NaverSpider.detailUrl code n page, none) :: sch, seen2, a2, o2))) ∧
    (∀ s : Option String, NaverSpider._parse_to_date s = .ok none →
      NaverSpider._to_yymmdd s = .ok none) ∧
    NaverSpider._parse_to_date (some "nodate") = .ok none ∧
    NaverSpider.parse_list ⟨2024, 10, 24⟩ "005930" "1"
      [⟨some "https://finance.naver.com/item/board_read.naver?code=005930&nid=12345",
        some "nodate"⟩] [] =
      .ok ([(NaverSpider.detailUrl "005930" "12345" "1", none)], ["12345"], true, true) ∧
    NaverSpider.list_next_page true true = true := by
  have hyy : ∀ s : Option String, NaverSpider._parse_to_date s = .ok none →
      NaverSpider._to_yymmdd s = .ok none := by
    intro s h
    unfold NaverSpider._to_yymmdd
    rw [h]
  have hstep : ∀ (cutoff : PyDateTime.PyDate) (code page : String) (seen : List String)
      (anyNewer allOld : Bool) (r : NaverSpider.BoardRow)
      (rs : List NaverSpider.BoardRow) (href n : String),
      r.href = some href →
      NaverSpider.containsSub "board_read.naver".data href.data = true →
      NaverSpider._parse_to_date r.uploadedRaw = .ok none →
      NaverSpider.nidOf href = .ok (some n) →
      n.data.isEmpty = false → n ∉ seen →
      NaverSpider.parse_list.go cutoff code page seen anyNewer allOld (r :: rs) =
        (match NaverSpider.parse_list.go cutoff code page (n :: seen) true allOld rs with
         | .error e => .error e
         | .ok (sch, seen2, a2, o2) =>
           .ok ((NaverSpider.detailUrl code n page, none) :: sch, seen2, a2, o2)) := by
    intro cutoff code page seen anyNewer allOld r rs href n
    intro hhref hsub hdate hnid hne hseen
    rw [NaverSpider.parse_list.go, hhref]
    dsimp only
    rw [if_neg (by simp [hsub]), hdate]
    dsimp only
    rw [if_pos rfl, hnid]
    dsimp only
    rw [if_neg (by simp [hne, hseen]), hyy r.uploadedRaw hdate]
    simp
  have hpd : NaverSpider._parse_to_date (some "nodate") = .ok none := by
    unfold NaverSpider._parse_to_date
    dsimp only
    rw [if_neg (by decide)]
    have hw : PyStr.wordsBy ("nodate" : String).data = [("nodate" : String).data] :=
      PyStrFacts.wordsBy_all_nonspace 'n' ('o' :: 'd' :: 'a' :: 't' :: 'e' :: [])
        (by decide)
    rw [hw, PyStr.intercalate_sp_singleton]
    rfl
  refine ⟨hstep, hyy, hpd, ?_, rfl⟩
  have hsplit : PyUrl.pyUrlsplit
      ("https://finance.naver.com/item/board_read.naver?code=005930&nid=12345"
        : String).data =
      .ok ⟨"https".data, "finance.naver.com".data, "/item/board_read.naver".data,
        "code=005930&nid=12345".data, []⟩ := rfl
  have hqsl : PyUrl.parseQsl ("code=005930&nid=12345" : String).data =
      [("code".data, "005930".data), ("nid".data, "12345".data)] := by
    unfold PyUrl.parseQsl
    rw [show PyUrl.splitAll '&' ("code=005930&nid=12345" : String).data =
      [("code=005930" : String).data, ("nid=12345" : String).data] from by decide]
    simp only [List.filterMap]
    rw [show PyUrl.splitOnce '=' ("code=005930" : String).data =
        some (("code" : String).data, ("005930" : String).data) from by decide,
      show PyUrl.splitOnce '=' ("nid=12345" : String).data =
        some (("nid" : String).data, ("12345" : String).data) from by decide]
    dsimp only
    rw [if_neg (by decide), if_neg (by decide),
      PyUrl.unquotePlus_of_plain ("code" : String).data (by decide),
      PyUrl.unquotePlus_of_plain ("005930" : String).data (by decide),
      PyUrl.unquotePlus_of_plain ("nid" : String).data (by decide),
      PyUrl.unquotePlus_of_plain ("12345" : String).data (by decide)]
  have hnid : NaverSpider.nidOf
      "https://finance.naver.com/item/board_read.naver?code=005930&nid=12345" =
      .ok (some "12345") := by
    unfold NaverSpider.nidOf
    rw [hsplit]
    dsimp only
    rw [hqsl]
    have e1 : ((("code" : String).data == ("nid" : String).data) : Bool) = false := by decide
    have e2 : ((("nid" : String).data == ("nid" : String).data) : Bool) = true := by decide
    simp [PyUrl.qsFirst, List.find?, e1, e2]
  show NaverSpider.parse_list.go ⟨2024, 10, 24⟩ "005930" "1" [] false true _ = _
  rw [hstep ⟨2024, 10, 24⟩ "005930" "1" [] false true _ []
    "https://finance.naver.com/item/board_read.naver?code=005930&nid=12345" "12345"
    rfl (by decide) hpd hnid (by decide) (by simp)]
  rfl

namespace ItemNewsFinance

open PyDateTime

/-- The cutoff test one row of `parse_finance_list` goes through: its raw
date cell cleaned and parsed, then compared against the cutoff; a missing
or unparsed date fails (such a row is skipped by the loop). -/
def rowPass (cutoff : PyDate) (r : ListRow) : Bool :=
  match _to_date (_clean r.rawDate) with
  | .ok (some d) => dateLe cutoff d
  | _ => false

/-- The article URL a row is scheduled under: oid/aid extraction from its
href followed by `_canonical_article_url` with the href itself as the
fallback (the empty string stands in for a row with no href, which the
loop skips before this value matters). -/
def rowUrl (r : ListRow) : String :=
  match r.href with
  | none => ""
  | some href =>
    (_canonical_article_url (_extract_oid_aid_from_href href).1
      (_extract_oid_aid_from_href href).2 (some href)).getD ""

/-- With a present fallback, `_canonical_article_url` always yields a URL,
and a nonempty fallback keeps it nonempty. -/
theorem canonical_fallback_ne (oid aid : Option String) (fb : String)
    (hfb : fb.data ≠ []) :
    ∃ u, _canonical_article_url oid aid (some fb) = some u ∧ u.data ≠ [] := by
  unfold _canonical_article_url
  rcases oid with _ | o
  · exact ⟨fb, rfl, hfb⟩
  rcases aid with _ | a
  · exact ⟨fb, rfl, hfb⟩
  dsimp only
  by_cases h : (!o.data.isEmpty && !a.data.isEmpty) = true
  · refine ⟨_, by rw [if_pos h], ?_⟩
    simp [String.data_append]
  · exact ⟨fb, by rw [if_neg h], hfb⟩

/-- The row loop of `parse_finance_list` on a page whose rows all carry a
truthy href and a parseable date, with no de-duplication interference:
exactly the rows on/after the cutoff are scheduled, in page order, each
under its article URL with its `_to_yymmdd` hint; the seen-set grows by
those URLs; and the recent-page flag ends true iff it started true or some
row passed. -/
theorem finance_go_spec (cutoff : PyDate) (rows : List ListRow) :
    ∀ (seen : List String) (hasRecent : Bool),
    (∀ r ∈ rows, ∃ h, r.href = some h ∧ h.data ≠ []) →
    (∀ r ∈ rows, ∃ d, _to_date (_clean r.rawDate) = .ok (some d)) →
    (∀ r ∈ rows, rowPass cutoff r = true → rowUrl r ∉ seen) →
    ((rows.filter (rowPass cutoff)).map rowUrl).Nodup →
    parse_finance_list.go cutoff seen hasRecent rows =
      .ok ((rows.filter (rowPass cutoff)).map
             (fun r => (rowUrl r, _to_yymmdd (_clean r.rawDate))),
           ((rows.filter (rowPass cutoff)).map rowUrl).reverse ++ seen,
           hasRecent || rows.any (rowPass cutoff)) := by
  induction rows with
  | nil =>
    intro seen hasRecent _ _ _ _
    simp [parse_finance_list.go]
  | cons r rs ih =>
    intro seen hasRecent hhref hdate hseen hnodup
    obtain ⟨href, hr, hrne⟩ := hhref r (List.mem_cons_self ..)
    obtain ⟨d, hd⟩ := hdate r (List.mem_cons_self ..)
    have hempty : href.data.isEmpty = false := by
      rcases hh : href.data with _ | _
      · exact absurd hh hrne
      · rfl
    obtain ⟨u, hu, hune⟩ := canonical_fallback_ne
      (_extract_oid_aid_from_href href).1 (_extract_oid_aid_from_href href).2 href hrne
    have hru : rowUrl r = u := by
      unfold rowUrl
      rw [hr]
      dsimp only
      rw [hu]
      rfl
    have huempty : u.data.isEmpty = false := by
      rcases hh : u.data with _ | _
      · exact absurd hh hune
      · rfl
    rw [parse_finance_list.go, hr]
    dsimp only
    rw [if_neg (by simp [hempty]), hd]
    dsimp only
    by_cases hp : dateLe cutoff d = true
    · have hpass : rowPass cutoff r = true := by
        unfold rowPass
        rw [hd]
        dsimp only
        exact hp
      have hfilter : (r :: rs).filter (rowPass cutoff) =
          r :: rs.filter (rowPass cutoff) := List.filter_cons_of_pos hpass
      have hnodup' := hfilter ▸ hnodup
      rw [List.map_cons, List.nodup_cons] at hnodup'
      rw [if_pos hp, hu]
      dsimp only
      have hnotseen : u ∈ seen → False := by
        intro hmem
        refine hseen r (List.mem_cons_self ..) hpass ?_
        rw [hru]
        exact hmem
      rw [if_neg (by simp [huempty]; exact hnotseen)]
      rw [ih (u :: seen) true
        (fun x hx => hhref x (List.mem_cons_of_mem _ hx))
        (fun x hx => hdate x (List.mem_cons_of_mem _ hx))
        (fun x hx hpx => by
          intro hmem
          rcases List.mem_cons.1 hmem with he | hm
          · apply hnodup'.1
            rw [hru, ← he]
            exact List.mem_map_of_mem rowUrl (List.mem_filter.2 ⟨hx, hpx⟩)
          · exact hseen x (List.mem_cons_of_mem _ hx) hpx hm)
        hnodup'.2]
      dsimp only
      rw [hfilter, List.map_cons, List.map_cons, hru, List.any_cons, hpass]
      simp [List.reverse_cons, List.append_assoc]
    · have hpass : rowPass cutoff r = false := by
        unfold rowPass
        rw [hd]
        dsimp only
        exact Bool.eq_false_iff.2 hp
      have hfilter : (r :: rs).filter (rowPass cutoff) =
          rs.filter (rowPass cutoff) := List.filter_cons_of_neg (by simp [hpass])
      rw [if_neg hp]
      rw [ih seen hasRecent
        (fun x hx => hhref x (List.mem_cons_of_mem _ hx))
        (fun x hx => hdate x (List.mem_cons_of_mem _ hx))
        (fun x hx => hseen x (List.mem_cons_of_mem _ hx))
        (hfilter ▸ hnodup)]
      rw [hfilter, List.any_cons, hpass]
      simp

/-- `parse_finance_list` is its row loop from an initially false
recent-page flag (the early return on an empty row list coincides with the
loop's base case). -/
theorem parse_finance_list_eq_go (cutoff : PyDate) (rows : List ListRow)
    (seen : List String) :
    parse_finance_list cutoff rows seen = parse_finance_list.go cutoff seen false rows := by
  rcases rows with _ | ⟨r, rs⟩
  · rfl
  · rfl

end ItemNewsFinance

/-- C4: cutoff filtering of `parse_finance_list` under the skip-stale,
keep-scanning policy (`src/finance_test/spiders/naver_item_news.py` lines
217–279).  On a page whose rows have truthy hrefs and parseable dates
(with no de-duplication interference), exactly the rows dated on or after
the cutoff are scheduled, in order, and a next-page request is issued if
and only if at least one row passed the cutoff.  In particular a page
dated [today, today-10, today-400] against a 365-day cutoff (today being
2025-10-24) schedules only the first two rows and requests the next page,
an all-stale page schedules nothing and stops, and an empty page stops. -/
theorem claim_C4 :
    (∀ (cutoff : PyDateTime.PyDate) (rows : List ItemNewsFinance.ListRow)
       (seen : List String),
      (∀ r ∈ rows, ∃ h, r.href = some h ∧ h.data ≠ []) →
      (∀ r ∈ rows, ∃ d, ItemNewsFinance._to_date (_clean r.rawDate) = .ok (some d)) →
      (∀ r ∈ rows, ItemNewsFinance.rowPass cutoff r = true →
        ItemNewsFinance.rowUrl r ∉ seen) →
      ((rows.filter (ItemNewsFinance.rowPass cutoff)).map ItemNewsFinance.rowUrl).Nodup →
      ItemNewsFinance.parse_finance_list cutoff rows seen =
        .ok ((rows.filter (ItemNewsFinance.rowPass cutoff)).map
               (fun r => (ItemNewsFinance.rowUrl r,
                 ItemNewsFinance._to_yymmdd (_clean r.rawDate))),
             ((rows.filter (ItemNewsFinance.rowPass cutoff)).map
               ItemNewsFinance.rowUrl).reverse ++ seen,
             rows.any (ItemNewsFinance.rowPass cutoff))) ∧
    ItemNewsFinance.parse_finance_list ⟨2024, 10, 24⟩
      [⟨some "https://finance.naver.com/item/news1", some "2025.10.24"⟩,
       ⟨some "https://finance.naver.com/item/news2", some "2025.10.14"⟩,
       ⟨some "https://finance.naver.com/item/news3", some "2024.09.19"⟩] [] =
      .ok ([("https://finance.naver.com/item/news1", some "25.10.24"),
            ("https://finance.naver.com/item/news2", some "25.10.14")],
           ["https://finance.naver.com/item/news2",
            "https://finance.naver.com/item/news1"], true) ∧
    ItemNewsFinance.parse_finance_list ⟨2024, 10, 24⟩
      [⟨some "https://finance.naver.com/item/news3", some "2024.09.19"⟩] [] =
      .ok ([], [], false) ∧
    (∀ (cutoff : PyDateTime.PyDate) (seen : List String),
      ItemNewsFinance.parse_finance_list cutoff [] seen = .ok ([], seen, false)) := by
  have huniv : ∀ (cutoff : PyDateTime.PyDate) (rows : List ItemNewsFinance.ListRow)
      (seen : List String),
      (∀ r ∈ rows, ∃ h, r.href = some h ∧ h.data ≠ []) →
      (∀ r ∈ rows, ∃ d, ItemNewsFinance._to_date (_clean r.rawDate) = .ok (some d)) →
      (∀ r ∈ rows, ItemNewsFinance.rowPass cutoff r = true →
        ItemNewsFinance.rowUrl r ∉ seen) →
      ((rows.filter (ItemNewsFinance.rowPass cutoff)).map ItemNewsFinance.rowUrl).Nodup →
      ItemNewsFinance.parse_finance_list cutoff rows seen =
        .ok ((rows.filter (ItemNewsFinance.rowPass cutoff)).map
               (fun r => (ItemNewsFinance.rowUrl r,
                 ItemNewsFinance._to_yymmdd (_clean r.rawDate))),
             ((rows.filter (ItemNewsFinance.rowPass cutoff)).map
               ItemNewsFinance.rowUrl).reverse ++ seen,
             rows.any (ItemNewsFinance.rowPass cutoff)) := by
    intro cutoff rows seen h1 h2 h3 h4
    rw [ItemNewsFinance.parse_finance_list_eq_go,
      ItemNewsFinance.finance_go_spec cutoff rows seen false h1 h2 h3 h4]
    simp
  have hclean1 : _clean (some "2025.10.24") = some "2025.10.24" :=
    PyStrFacts.clean_plain _ (by decide) (by decide)
  have hclean2 : _clean (some "2025.10.14") = some "2025.10.14" :=
    PyStrFacts.clean_plain _ (by decide) (by decide)
  have hclean3 : _clean (some "2024.09.19") = some "2024.09.19" :=
    PyStrFacts.clean_plain _ (by decide) (by decide)
  have hp1 : ItemNewsFinance.rowPass ⟨2024, 10, 24⟩
      ⟨some "https://finance.naver.com/item/news1", some "2025.10.24"⟩ = true := by
    unfold ItemNewsFinance.rowPass
    dsimp only
    rw [hclean1]
    rfl
  have hp2 : ItemNewsFinance.rowPass ⟨2024, 10, 24⟩
      ⟨some "https://finance.naver.com/item/news2", some "2025.10.14"⟩ = true := by
    unfold ItemNewsFinance.rowPass
    dsimp only
    rw [hclean2]
    rfl
  have hp3 : ItemNewsFinance.rowPass ⟨2024, 10, 24⟩
      ⟨some "https://finance.naver.com/item/news3", some "2024.09.19"⟩ = false := by
    unfold ItemNewsFinance.rowPass
    dsimp only
    rw [hclean3]
    rfl
  have hu1 : ItemNewsFinance.rowUrl
      ⟨some "https://finance.naver.com/item/news1", some "2025.10.24"⟩ =
      "https://finance.naver.com/item/news1" := rfl
  have hu2 : ItemNewsFinance.rowUrl
      ⟨some "https://finance.naver.com/item/news2", some "2025.10.14"⟩ =
      "https://finance.naver.com/item/news2" := rfl
  refine ⟨huniv, ?_, ?_, fun cutoff seen => rfl⟩
  · have hfil : ([⟨some "https://finance.naver.com/item/news1", some "2025.10.24"⟩,
        ⟨some "https://finance.naver.com/item/news2", some "2025.10.14"⟩,
        ⟨some "https://finance.naver.com/item/news3", some "2024.09.19"⟩]
          : List ItemNewsFinance.ListRow).filter
        (ItemNewsFinance.rowPass ⟨2024, 10, 24⟩) =
        [⟨some "https://finance.naver.com/item/news1", some "2025.10.24"⟩,
         ⟨some "https://finance.naver.com/item/news2", some "2025.10.14"⟩] := by
      rw [List.filter_cons_of_pos hp1, List.filter_cons_of_pos hp2,
        List.filter_cons_of_neg (by simp [hp3]), List.filter_nil]
    rw [huniv _ _ _
      (by
        intro r hr
        simp only [List.mem_cons, List.not_mem_nil, or_false] at hr
        rcases hr with rfl | rfl | rfl
        · exact ⟨_, rfl, by decide⟩
        · exact ⟨_, rfl, by decide⟩
        · exact ⟨_, rfl, by decide⟩)
      (by
        intro r hr
        simp only [List.mem_cons, List.not_mem_nil, or_false] at hr
        rcases hr with rfl | rfl | rfl
        · exact ⟨⟨2025, 10, 24⟩, by dsimp only; rw [hclean1]; rfl⟩
        · exact ⟨⟨2025, 10, 14⟩, by dsimp only; rw [hclean2]; rfl⟩
        · exact ⟨⟨2024, 9, 19⟩, by dsimp only; rw [hclean3]; rfl⟩)
      (fun r _ _ => List.not_mem_nil _)
      (by
        rw [hfil, List.map_cons, List.map_cons, List.map_nil, hu1, hu2]
        decide)]
    rw [hfil]
    simp only [List.map_cons, List.map_nil, List.any_cons, List.any_nil]
    rw [hu1, hu2, hp1]
    rw [hclean1, hclean2]
    rfl
  · rw [huniv _ _ _
      (by
        intro r hr
        simp only [List.mem_cons, List.not_mem_nil, or_false] at hr
        rcases hr with rfl
        exact ⟨_, rfl, by decide⟩)
      (by
        intro r hr
        simp only [List.mem_cons, List.not_mem_nil, or_false] at hr
        rcases hr with rfl
        exact ⟨⟨2024, 9, 19⟩, by dsimp only; rw [hclean3]; rfl⟩)
      (fun r _ _ => List.not_mem_nil _)
      (by
        rw [List.filter_cons_of_neg (by simp [hp3]), List.filter_nil, List.map_nil]
        exact List.nodup_nil)]
    rw [List.filter_cons_of_neg (by simp [hp3]), List.filter_nil]
    simp only [List.map_nil, List.any_cons, List.any_nil, List.reverse_nil,
      List.nil_append]
    rw [hp3]
    rfl

namespace UrlFacts

/-- The query-style canonicalisation through the alternate parameter pair
`oid`/`aid`: `_extract_oid_aid_from_url` falls back to these keys when
`office_id`/`article_id` are absent, and the canonical link is the same
fixed template. -/
theorem canonical_link_query_alt (o a : List Char) (ho : o ≠ [])
    (hod : ∀ c ∈ o, c.isDigit = true) (ha : a ≠ [])
    (had : ∀ c ∈ a, c.isDigit = true) :
    ItemNewsCrawler.canonical_link
      (String.mk ("https://finance.naver.com/item/news_read.naver?oid=".data ++
        o ++ "&aid=".data ++ a)) =
      String.mk ("https://news.naver.com/article/".data ++ (o ++ '/' :: a)) := by
  have hplus : ∀ l : List Char, (∀ c ∈ l, c.isDigit = true) →
      ∀ c ∈ l, c ≠ '+' ∧ c ≠ '%' := by
    intro l hl c hc
    constructor
    · rintro rfl
      exact absurd (hl _ hc) (by decide)
    · rintro rfl
      exact absurd (hl _ hc) (by decide)
  have hre : "https://finance.naver.com/item/news_read.naver?oid=".data ++
        o ++ "&aid=".data ++ a =
      "https".data ++ ':' :: '/' :: '/' ::
        ("finance.naver.com".data ++ '/' ::
          ("item/news_read.naver".data ++ '?' ::
            ("oid=".data ++ (o ++ '&' :: ("aid=".data ++ a))))) := by
    rw [show ("https://finance.naver.com/item/news_read.naver?oid=".data : List Char) =
      "https".data ++ ':' :: '/' :: '/' ::
        ("finance.naver.com".data ++ '/' ::
          ("item/news_read.naver".data ++ '?' :: "oid=".data)) from by decide,
      show ("&aid=".data : List Char) = '&' :: "aid=".data from by decide]
    simp [List.append_assoc]
  have htail : ∀ c ∈ "item/news_read.naver".data ++ '?' ::
        ("oid=".data ++ (o ++ '&' :: ("aid=".data ++ a))),
      PyUrl.isC0OrSpace c = false ∧ PyUrl.isUnsafeUrlChar c = false := by
    intro c hc
    rcases List.mem_append.1 hc with h | h
    · exact ⟨(by decide : ∀ x ∈ "item/news_read.naver".data, PyUrl.isC0OrSpace x = false) c h,
        (by decide : ∀ x ∈ "item/news_read.naver".data, PyUrl.isUnsafeUrlChar x = false) c h⟩
    · rcases List.mem_cons.1 h with rfl | h2
      · exact ⟨by decide, by decide⟩
      · rcases List.mem_append.1 h2 with h3 | h3
        · exact ⟨(by decide : ∀ x ∈ "oid=".data, PyUrl.isC0OrSpace x = false) c h3,
            (by decide : ∀ x ∈ "oid=".data, PyUrl.isUnsafeUrlChar x = false) c h3⟩
        · rcases List.mem_append.1 h3 with h4 | h4
          · exact ⟨(digit_url_facts c (hod c h4)).2.1, (digit_url_facts c (hod c h4)).1⟩
          · rcases List.mem_cons.1 h4 with rfl | h5
            · exact ⟨by decide, by decide⟩
            · rcases List.mem_append.1 h5 with h6 | h6
              · exact ⟨(by decide : ∀ x ∈ "aid=".data,
                    PyUrl.isC0OrSpace x = false) c h6,
                  (by decide : ∀ x ∈ "aid=".data,
                    PyUrl.isUnsafeUrlChar x = false) c h6⟩
              · exact ⟨(digit_url_facts c (had c h6)).2.1, (digit_url_facts c (had c h6)).1⟩
  have hfrag : '#' ∉ "item/news_read.naver".data ++ '?' ::
      ("oid=".data ++ (o ++ '&' :: ("aid=".data ++ a))) := by
    intro hm
    rcases List.mem_append.1 hm with h | h
    · exact absurd h (by decide)
    · rcases List.mem_cons.1 h with h1 | h2
      · exact absurd h1 (by decide)
      · rcases List.mem_append.1 h2 with h3 | h3
        · exact absurd h3 (by decide)
        · rcases List.mem_append.1 h3 with h4 | h4
          · exact absurd (hod _ h4) (by decide)
          · rcases List.mem_cons.1 h4 with h5 | h5
            · exact absurd h5 (by decide)
            · rcases List.mem_append.1 h5 with h6 | h6
              · exact absurd h6 (by decide)
              · exact absurd (had _ h6) (by decide)
  have hq : PyUrl.splitOnce '?' ('/' :: ("item/news_read.naver".data ++ '?' ::
      ("oid=".data ++ (o ++ '&' :: ("aid=".data ++ a))))) =
      some ("/item/news_read.naver".data,
        "oid=".data ++ (o ++ '&' :: ("aid=".data ++ a))) := by
    rw [show ('/' :: ("item/news_read.naver".data ++ '?' ::
        ("oid=".data ++ (o ++ '&' :: ("aid=".data ++ a))))) =
      "/item/news_read.naver".data ++ '?' ::
        ("oid=".data ++ (o ++ '&' :: ("aid=".data ++ a))) from by
      rw [show ("/item/news_read.naver".data : List Char) =
        '/' :: "item/news_read.naver".data from by decide]
      rfl]
    exact PyUrl.splitOnce_append_first '?' _ _ (by decide)
  have hsplit : PyUrl.pyUrlsplit
      ("https://finance.naver.com/item/news_read.naver?oid=".data ++
        o ++ "&aid=".data ++ a) =
      .ok ⟨"https".data, "finance.naver.com".data, "/item/news_read.naver".data,
        "oid=".data ++ (o ++ '&' :: ("aid=".data ++ a)), []⟩ := by
    rw [hre, pyUrlsplit_https _ _ (by decide) htail hfrag, hq]
  have hqsl : PyUrl.parseQsl ("oid=".data ++ (o ++ '&' :: ("aid=".data ++ a))) =
      [("oid".data, o), ("aid".data, a)] := by
    unfold PyUrl.parseQsl
    rw [show ("oid=".data ++ (o ++ '&' :: ("aid=".data ++ a))) =
      ("oid=".data ++ o) ++ '&' :: ("aid=".data ++ a) from by
      simp [List.append_assoc]]
    rw [PyUrl.splitAll_append_first '&' _ _ (by
      intro hm
      rcases List.mem_append.1 hm with h | h
      · exact absurd h (by decide)
      · exact absurd (hod _ h) (by decide)),
      PyUrl.splitAll_of_not_mem '&' _ (by
      intro hm
      rcases List.mem_append.1 hm with h | h
      · exact absurd h (by decide)
      · exact absurd (had _ h) (by decide))]
    simp only [List.filterMap]
    rw [show ("oid=".data ++ o) = "oid".data ++ '=' :: o from by
        rw [show ("oid=".data : List Char) = "oid".data ++ ['='] from by decide]
        simp,
      show ("aid=".data ++ a) = "aid".data ++ '=' :: a from by
        rw [show ("aid=".data : List Char) = "aid".data ++ ['='] from by decide]
        simp,
      PyUrl.splitOnce_append_first '=' _ _ (by decide),
      PyUrl.splitOnce_append_first '=' _ _ (by decide)]
    dsimp only
    rw [if_neg (by simpa using ho), if_neg (by simpa using ha),
      PyUrl.unquotePlus_of_plain o (hplus o hod),
      PyUrl.unquotePlus_of_plain a (hplus a had),
      PyUrl.unquotePlus_of_plain "oid".data (by decide),
      PyUrl.unquotePlus_of_plain "aid".data (by decide)]
  have hqe : ItemNewsCrawler.queryExtract
      ("oid=".data ++ (o ++ '&' :: ("aid=".data ++ a))) =
      (some o, some a) := by
    unfold ItemNewsCrawler.queryExtract
    rw [hqsl]
    dsimp only
    have e1 : (("oid".data == "office_id".data) : Bool) = false := by decide
    have e2 : (("aid".data == "office_id".data) : Bool) = false := by decide
    have e3 : (("oid".data == "oid".data) : Bool) = true := by decide
    have e4 : (("oid".data == "article_id".data) : Bool) = false := by decide
    have e5 : (("aid".data == "article_id".data) : Bool) = false := by decide
    have e6 : (("oid".data == "aid".data) : Bool) = false := by decide
    have e7 : (("aid".data == "aid".data) : Bool) = true := by decide
    simp [PyUrl.qsFirst, List.find?, e1, e2, e3, e4, e5, e6, e7]
  have hcan2 : ItemNewsCrawler._canonical_article_url
      (some (String.mk o)) (some (String.mk a)) =
      some ("https://news.naver.com/article/" ++ String.mk o ++ "/" ++ String.mk a) := by
    unfold ItemNewsCrawler._canonical_article_url
    dsimp only
    rw [if_pos ⟨ho, ha⟩]
  unfold ItemNewsCrawler.canonical_link ItemNewsCrawler._extract_oid_aid_from_url
    ItemNewsCrawler.extractBody
  rw [show (String.mk ("https://finance.naver.com/item/news_read.naver?oid=".data ++
      o ++ "&aid=".data ++ a)).data =
    "https://finance.naver.com/item/news_read.naver?oid=".data ++
      o ++ "&aid=".data ++ a from rfl, hsplit]
  dsimp only
  rw [show (PyUrl.splitAll '/' "/item/news_read.naver".data).filter (fun x => !x.isEmpty) =
    ["item".data, "news_read.naver".data] from by decide]
  rw [show ItemNewsCrawler.pathExtract ["item".data, "news_read.naver".data] = none from by decide]
  dsimp only
  rw [hqe]
  dsimp only [Option.map]
  rw [hcan2]
  dsimp only [Option.getD]
  apply String.ext
  simp only [String.data_append]
  simp [List.append_assoc]

end UrlFacts

/-- C1: URL canonicalisation
(`src/crawler/finance_test/spiders/naver_item_news.py` lines 63–88).  A
path whose last three segments are `article`/oid/aid with both ids purely
numeric extracts that pair, whatever comes before; for every nonempty
numeric oid/aid, the path-style URL, the `office_id`/`article_id`
query-style URL and the alternate `oid`/`aid` query-style URL all
canonicalise to the fixed template
`https://news.naver.com/article/oid/aid` — in particular the two concrete
277/0005709756 variants; and whenever extraction fails to produce both ids
(`_canonical_article_url` yields `None`, which is forced as soon as either
id is missing) the link falls back to the original URL unchanged. -/
theorem claim_C1 :
    (∀ (pre : List (List Char)) (o a : List Char),
      PyStr.pyIsDigit o = true → PyStr.pyIsDigit a = true →
      ItemNewsCrawler.pathExtract (pre ++ ["article".data, o, a]) = some (o, a)) ∧
    (∀ o a : List Char, o ≠ [] → a ≠ [] →
      (∀ c ∈ o, c.isDigit = true) → (∀ c ∈ a, c.isDigit = true) →
      ItemNewsCrawler.canonical_link
          (String.mk ("https://n.news.naver.com/article/".data ++ o ++ '/' :: a)) =
        String.mk ("https://news.naver.com/article/".data ++ (o ++ '/' :: a)) ∧
      ItemNewsCrawler.canonical_link
          (String.mk ("https://finance.naver.com/item/news_read.naver?office_id=".data ++
            o ++ "&article_id=".data ++ a)) =
        String.mk ("https://news.naver.com/article/".data ++ (o ++ '/' :: a)) ∧
      ItemNewsCrawler.canonical_link
          (String.mk ("https://finance.naver.com/item/news_read.naver?oid=".data ++
            o ++ "&aid=".data ++ a)) =
        String.mk ("https://news.naver.com/article/".data ++ (o ++ '/' :: a))) ∧
    ItemNewsCrawler.canonical_link "https://n.news.naver.com/article/277/0005709756" =
      "https://news.naver.com/article/277/0005709756" ∧
    ItemNewsCrawler.canonical_link
        "https://finance.naver.com/item/news_read.naver?office_id=277&article_id=0005709756" =
      "https://news.naver.com/article/277/0005709756" ∧
    (∀ url : String,
      ItemNewsCrawler._canonical_article_url
        (ItemNewsCrawler._extract_oid_aid_from_url url).1
        (ItemNewsCrawler._extract_oid_aid_from_url url).2 = none →
      ItemNewsCrawler.canonical_link url = url) ∧
    (∀ oid : Option String, ItemNewsCrawler._canonical_article_url oid none = none) ∧
    (∀ aid : Option String, ItemNewsCrawler._canonical_article_url none aid = none) := by
  refine ⟨?_, ?_, ?_, ?_, ?_, ?_, ?_⟩
  · intro pre o a ho ha
    unfold ItemNewsCrawler.pathExtract
    rw [show (pre ++ ["article".data, o, a]).reverse =
      a :: o :: "article".data :: pre.reverse from by simp]
    dsimp only
    rw [if_pos ⟨rfl, ho, ha⟩]
  · intro o a ho ha hod had
    exact ⟨UrlFacts.canonical_link_path o a ho hod ha had,
      UrlFacts.canonical_link_query o a ho hod ha had,
      UrlFacts.canonical_link_query_alt o a ho hod ha had⟩
  · exact UrlFacts.canonical_link_path "277".data "0005709756".data
      (by decide) (by decide) (by decide) (by decide)
  · exact UrlFacts.canonical_link_query "277".data "0005709756".data
      (by decide) (by decide) (by decide) (by decide)
  · intro url h
    unfold ItemNewsCrawler.canonical_link
    dsimp only
    rw [h]
    rfl
  · intro oid
    rcases oid with _ | o <;> rfl
  · intro aid
    rfl

/-- C2: identifier stability
(`src/crawler/finance_test/spiders/naver_item_news.py` lines 265–267 and
`src/finance_test/spiders/naver_item_news.py` lines 200–201).  The record
identifier is by definition the name-based UUID-version-5 hash, in the URL
namespace, of the canonical link (the fallback URL itself when
canonicalisation fails, since the canonical link is then that URL); it is
a pure function, so computing it twice on the same URL gives the same
value, URLs with equal canonical links get equal identifiers, and for any
nonempty numeric oid/aid the path-style and query-style variants of the
same article get the same identifier. -/
theorem claim_C2 :
    (∀ url : String, ItemNewsCrawler.record_uuid url =
      ItemNewsFinance._make_uuid (ItemNewsCrawler.canonical_link url)) ∧
    (∀ s : String, ItemNewsFinance._make_uuid s =
      String.mk (Uuid.uuid5 Uuid.NAMESPACE_URL s.data)) ∧
    (∀ url : String, ItemNewsCrawler.record_uuid url = ItemNewsCrawler.record_uuid url) ∧
    (∀ u v : String, ItemNewsCrawler.canonical_link u = ItemNewsCrawler.canonical_link v →
      ItemNewsCrawler.record_uuid u = ItemNewsCrawler.record_uuid v) ∧
    (∀ o a : List Char, o ≠ [] → a ≠ [] →
      (∀ c ∈ o, c.isDigit = true) → (∀ c ∈ a, c.isDigit = true) →
      ItemNewsCrawler.record_uuid
          (String.mk ("https://n.news.naver.com/article/".data ++ o ++ '/' :: a)) =
        ItemNewsCrawler.record_uuid
          (String.mk ("https://finance.naver.com/item/news_read.naver?office_id=".data ++
            o ++ "&article_id=".data ++ a))) := by
  refine ⟨fun url => rfl, fun s => rfl, fun url => rfl, ?_, ?_⟩
  · intro u v h
    unfold ItemNewsCrawler.record_uuid
    rw [h]
  · intro o a ho ha hod had
    unfold ItemNewsCrawler.record_uuid
    rw [UrlFacts.canonical_link_path o a ho hod ha had,
      UrlFacts.canonical_link_query o a ho hod ha had]
